import Mathlib

/-!
# Verification of the S21 Maze path-finding engine (`PathFinder.cpp`)

A shallow embedding of the path-finding engine of the repository:
the A* searcher, the Q-Learning trainer with its greedy rollout, the
geometry projector and the engine facade (`s21::PathFinder`).

Modelling conventions:

* C++ `int` is modelled as `Int` (no overflow occurs in the scenarios of the
  claims); `int` division is `Int.tdiv` (truncation toward zero).
* C++ `float` values are modelled as exact unreduced fractions `Fr`
  (a numerator/denominator pair of integers with positive denominator by
  construction); the engine's float arithmetic is modelled exactly over ℚ,
  except where a claim is specifically about binary32 rounding
  (`getEpisodesCount`), where a round-to-nearest-even binary32 model is used.
* `std::priority_queue`, `std::set` and `std::map` are modelled as lists:
  the queue pops the least `(f, point)` pair, the map is an association list
  where a freshly prepended binding shadows older ones (`operator[]`
  overwrite), and set membership is list membership.
* The unbounded C++ loops (the A* main loop, the reconstruction walk, a
  Q-Learning episode) are modelled with explicit fuel; exhausting the fuel is
  a distinguished `diverged`/`none` outcome, never confused with the
  program's own success or failure results.
* The random draws of `selectAction` (a fresh `std::mt19937` seeded from
  `std::random_device` per call) are modelled by oracle streams `Rng`, and
  the C library `exp` by a function parameter `expq`; theorems about runs
  quantify over these, concrete runs instantiate them.
-/

namespace S21Maze

/-! ## Exact fractions standing in for C++ `float` -/

/-- An unreduced fraction `n / d`. All constructions used by the engine keep
`d` positive, so comparisons by cross-multiplication agree with ℚ. -/
structure Fr where
  n : Int
  d : Int
  deriving DecidableEq, Repr

namespace Fr

/-- Embed an integer. -/
def ofInt (k : Int) : Fr := ⟨k, 1⟩

/-- Addition of fractions. -/
def add (a b : Fr) : Fr := ⟨a.n * b.d + b.n * a.d, a.d * b.d⟩

/-- Subtraction of fractions. -/
def sub (a b : Fr) : Fr := ⟨a.n * b.d - b.n * a.d, a.d * b.d⟩

/-- Multiplication of fractions. -/
def mul (a b : Fr) : Fr := ⟨a.n * b.n, a.d * b.d⟩

/-- Negation. -/
def neg (a : Fr) : Fr := ⟨-a.n, a.d⟩

/-- Division, keeping the denominator nonnegative.  Division by a zero
fraction yields a zero denominator, the stand-in for the C++ float
infinity; no claim theorem depends on that branch. -/
def div (a b : Fr) : Fr :=
  if 0 ≤ b.n then ⟨a.n * b.d, a.d * b.n⟩ else ⟨-(a.n * b.d), -(a.d * b.n)⟩

/-- Strict comparison by cross-multiplication (valid for positive
denominators). -/
def blt (a b : Fr) : Bool := a.n * b.d < b.n * a.d

/-- `std::min` on floats: `b < a ? b : a`. -/
def fmin (a b : Fr) : Fr := if blt b a then b else a

/-- The rational value of a fraction. -/
def val (a : Fr) : ℚ := (a.n : ℚ) / (a.d : ℚ)

/-- Truncation toward zero (the C++ `float` → `int` conversion), exact for
positive denominators. -/
def trunc (a : Fr) : Int := a.n.tdiv a.d

end Fr

/-! ## Points, the maze grid, operation results -/

/-- `Point<int>`: a `(col, row)` pair of signed integers. -/
structure Pt where
  col : Int
  row : Int
  deriving DecidableEq, Repr

/-- `Point<float>`: viewport coordinates. -/
structure PtQ where
  col : Fr
  row : Fr
  deriving DecidableEq, Repr

/-- Modelled from the spec: `Point<int>::operator<` lives in the missing
header `PathFinder.h`; the spec (§9) only requires some deterministic total
order on `(col, row)`, and no claim depends on the choice.  We use the
lexicographic order on `(col, row)`. -/
def ptLt (a b : Pt) : Bool :=
  a.col < b.col || (a.col = b.col && a.row < b.row)

/-- `S21Matrix<char>`: the doubled-grid maze with its dimensions. -/
structure Maze where
  rows : Nat
  cols : Nat
  cells : List (List Char)
  deriving DecidableEq, Repr

/-- Cell lookup `maze_(y, x)`, defined only for in-range queries (the code
guards every access by the range check in `isNotWall`). -/
def Maze.at (m : Maze) (y x : Int) : Char :=
  ((m.cells.getD y.toNat []).getD x.toNat ' ')

/-- `OpResult`: `{ok, message}`. -/
structure OpResult where
  ok : Bool
  message : String
  deriving DecidableEq, Repr

/-- The A* / rollout failure message. -/
def pathNotFoundMsg : String :=
  "Path not found. Probably the labyrinth has isolated study areas"

/-- The Q-mode out-of-range rejection message. -/
def incorrectPointMsg : String := "Incorrect point"

/-! ## The engine facade state -/

/-- The data members of `s21::PathFinder`. -/
structure PathFinder where
  start_ : Pt
  end_ : Pt
  path_ : List Pt
  maze_ : Maze
  deriving DecidableEq, Repr

/-- The default constructor: endpoints at the `(-1, -1)` sentinel, empty
path, empty maze. -/
def PathFinder.init : PathFinder :=
  ⟨⟨-1, -1⟩, ⟨-1, -1⟩, [], ⟨0, 0, []⟩⟩

/-- `PathFinder::setMaze`: reset the state and move the grid in. -/
def setMaze (m : Maze) : PathFinder :=
  ⟨⟨-1, -1⟩, ⟨-1, -1⟩, [], m⟩

/-- `PathFinder::isNotWall`: in range and the stored character is `'0'`. -/
def isNotWall (m : Maze) (x y : Int) : Bool :=
  if 0 ≤ x ∧ x < (m.cols : Int) ∧ 0 ≤ y ∧ y < (m.rows : Int) then
    m.at y x = '0'
  else
    false

/-- `PathFinder::calculateG`: axis-aligned step cost. -/
def calculateG (current next : Pt) : Int :=
  if current.col = next.col then (current.row - next.row).natAbs
  else if current.row = next.row then (current.col - next.col).natAbs
  else 0

/-- `PathFinder::calculateHeuristic`: Manhattan distance. -/
def calculateHeuristic (point goal : Pt) : Int :=
  ((point.col - goal.col).natAbs : Int) + ((point.row - goal.row).natAbs : Int)

/-! ## The A* searcher -/

/-- First-match lookup in an association list (`std::map` access, newest
binding first). -/
def alookup (l : List (Pt × Pt)) (k : Pt) : Option Pt :=
  match l with
  | [] => none
  | (k', v) :: rest => if k' = k then some v else alookup rest k

/-- The strict order on priority-queue entries: `std::greater` on
`std::pair<int, Point>` pops the least pair. -/
def pairLt (a b : Int × Pt) : Bool :=
  a.1 < b.1 || (a.1 = b.1 && ptLt a.2 b.2)

/-- Remove the first occurrence of an element from a list. -/
def removeFirst (x : Int × Pt) : List (Int × Pt) → List (Int × Pt)
  | [] => []
  | y :: ys => if y = x then ys else y :: removeFirst x ys

/-- Pop the least entry of the queue. -/
def popMin (pq : List (Int × Pt)) : Option ((Int × Pt) × List (Int × Pt)) :=
  match pq with
  | [] => none
  | x :: xs =>
    let best := xs.foldl (fun b y => if pairLt y b then y else b) x
    some (best, removeFirst best (x :: xs))

/-- The reconstruction walk of `PathFinder::reconstructPath`: from `cur`
back through the parent map, stopping silently when a predecessor is
missing, appending `start` when it is reached.  `none` is fuel exhaustion
(the C++ loop running unboundedly on a cyclic map — shown unreachable in
every use). -/
def reconWalk (parent : List (Pt × Pt)) (start : Pt) :
    Nat → Pt → List Pt → Option (List Pt)
  | 0, _, _ => none
  | fuel + 1, cur, acc =>
    if cur = start then some (acc ++ [start])
    else
      match alookup parent cur with
      | none => some acc
      | some p => reconWalk parent start fuel p (acc ++ [cur])

/-- `PathFinder::reconstructPath` with fuel `parent.length + 1` (enough for
any acyclic chain over the map). -/
def reconstructPath (parent : List (Pt × Pt)) (start endP : Pt) :
    Option (List Pt) :=
  reconWalk parent start (parent.length + 1) endP []

/-- Outcome of the A* search. -/
inductive AStarOut where
  | found (p : List Pt)
  | notFound
  | diverged
  deriving DecidableEq, Repr

/-- The neighbour displacements in scan order LEFT, UP, RIGHT, DOWN. -/
def dirOrder : List (Int × Int) := [(-1, 0), (0, -1), (1, 0), (0, 1)]

/-- One conditional discovery step of the A* neighbour scan. -/
def scanDir (m : Maze) (goal start cur : Pt)
    (st : List (Int × Pt) × List Pt × List (Pt × Pt)) (d : Int × Int) :
    List (Int × Pt) × List Pt × List (Pt × Pt) :=
  let next : Pt := ⟨cur.col + d.1, cur.row + d.2⟩
  if isNotWall m next.col next.row ∧ next ∉ st.2.1 then
    let gNew := calculateG cur next + calculateG start cur
    let hNew := calculateHeuristic next goal
    ((gNew + hNew, next) :: st.1, st.2.1 ++ [next], (next, cur) :: st.2.2)
  else st

/-- The A* main loop over `(queue, visited, parent)`. -/
def astarLoop (m : Maze) (goal start : Pt) :
    Nat → List (Int × Pt) → List Pt → List (Pt × Pt) → AStarOut
  | 0, _, _, _ => .diverged
  | fuel + 1, pq, visited, parent =>
    match popMin pq with
    | none => .notFound
    | some ((_, cur), pq') =>
      if cur = goal then
        match reconstructPath parent start goal with
        | some p => .found p
        | none => .diverged
      else
        let st := dirOrder.foldl (scanDir m goal start cur) (pq', visited, parent)
        astarLoop m goal start fuel st.1 st.2.1 st.2.2

/-- `PathFinder::findPathAStar`: double the endpoints, seed the queue with
the doubled start, and run the loop.  The fuel `rows·cols + 2` exceeds the
number of possible discoveries, so the loop itself never exhausts it. -/
def findPathAStar (pf : PathFinder) : AStarOut :=
  let start : Pt := ⟨pf.start_.col * 2, pf.start_.row * 2⟩
  let goal : Pt := ⟨pf.end_.col * 2, pf.end_.row * 2⟩
  let fStart := calculateHeuristic start goal
  astarLoop pf.maze_ goal start (pf.maze_.rows * pf.maze_.cols + 2)
    [(fStart, start)] [start] []

/-! ## The facade: `findPath`, `setStartPosition`, `setEndPosition` -/

/-- `PathFinder::findPath`: the wrapper around A* shared by the two setters.
`isStart` records which endpoint field the `first` reference aliases.
The result pairs the post-call object state with `some e` when the C++
code rethrows `e`; `none` from the outer option is fuel divergence. -/
def findPath (pf : PathFinder) (isStart : Bool) (copy : Pt) :
    Option (PathFinder × Option OpResult) :=
  if pf.maze_.rows = 0 ∨ pf.maze_.cols = 0 then some (pf, none)
  else
    let second := if isStart then pf.end_ else pf.start_
    if second.col > -1 ∧ second.row > -1 then
      match findPathAStar pf with
      | .found p => some ({ pf with path_ := p }, none)
      | .notFound =>
        some (if isStart then { pf with start_ := copy } else { pf with end_ := copy },
          some ⟨false, pathNotFoundMsg⟩)
      | .diverged => none
    else some (pf, none)

/-- `PathFinder::setStartPosition`. -/
def setStartPosition (pf : PathFinder) (start : PtQ) (wRatio hRatio : Fr) :
    Option (PathFinder × Option OpResult) :=
  let rowIndex : Int := (start.row.div hRatio).trunc
  let colIndex : Int := (start.col.div wRatio).trunc
  let copy := pf.start_
  findPath { pf with start_ := ⟨colIndex, rowIndex⟩ } true copy

/-- `PathFinder::setEndPosition`. -/
def setEndPosition (pf : PathFinder) (endP : PtQ) (wRatio hRatio : Fr) :
    Option (PathFinder × Option OpResult) :=
  let rowIndex : Int := (endP.row.div hRatio).trunc
  let colIndex : Int := (endP.col.div wRatio).trunc
  let copy := pf.end_
  findPath { pf with end_ := ⟨colIndex, rowIndex⟩ } false copy

/-! ## The geometry projector and the render query -/

/-- A filled square `{x, y, w, h}` of `PathRenderConfig::points_`. -/
structure Rect where
  x : Fr
  y : Fr
  w : Fr
  h : Fr
  deriving DecidableEq, Repr

/-- A polyline segment `{x1, y1, x2, y2}` of `PathRenderConfig::path_`. -/
structure Seg where
  x1 : Fr
  y1 : Fr
  x2 : Fr
  y2 : Fr
  deriving DecidableEq, Repr

/-- `PathRenderConfig`: marker squares and path segments. -/
structure PathRenderConfig where
  points_ : List Rect
  path_ : List Seg
  deriving DecidableEq, Repr

/-- The empty render configuration (`return {}`). -/
def emptyConfig : PathRenderConfig := ⟨[], []⟩

/-- The marker square `setPointToPath` pushes for a logical cell:
`width / cols` and `height / rows` are C++ `int` divisions, the rest is
float arithmetic over the truncated viewport size. -/
def markerRect (m : Maze) (el : Pt) (areaSize : PtQ) : Rect :=
  let width : Int := areaSize.col.trunc
  let height : Int := areaSize.row.trunc
  let rows : Int := (m.rows / 2 : Nat)
  let cols : Int := (m.cols / 2 : Nat)
  let baseCellSize : Fr := Fr.ofInt (min (width.tdiv cols) (height.tdiv rows))
  let squareSize : Fr := baseCellSize.div (Fr.ofInt 4)
  let scaleFactorX : Fr := (Fr.ofInt width).div (baseCellSize.mul (Fr.ofInt cols))
  let scaleFactorY : Fr := (Fr.ofInt height).div (baseCellSize.mul (Fr.ofInt rows))
  let centerX : Fr :=
    ((Fr.ofInt el.col).add ⟨1, 2⟩).mul baseCellSize |>.mul scaleFactorX
  let centerY : Fr :=
    ((Fr.ofInt el.row).add ⟨1, 2⟩).mul baseCellSize |>.mul scaleFactorY
  ⟨centerX.sub (squareSize.div (Fr.ofInt 2)),
   centerY.sub (squareSize.div (Fr.ofInt 2)), squareSize, squareSize⟩

/-- `PathFinder::setPointToPath`: push the marker square of a logical cell;
cells with a coordinate at the `-1` sentinel (or below) are skipped. -/
def setPointToPath (m : Maze) (el : Pt) (config : PathRenderConfig)
    (areaSize : PtQ) : PathRenderConfig :=
  if el.row > -1 ∧ el.col > -1 then
    { config with points_ := config.points_ ++ [markerRect m el areaSize] }
  else config

/-- The center abscissa a doubled cell projects to in `fillPath`
(`(current.col / 2 + 0.5f) * baseCellSize * scaleFactorX`, with `col / 2`
a C++ `int` division). -/
def segCenterX (baseCellSize scaleFactorX : Fr) (c : Pt) : Fr :=
  ((Fr.ofInt (c.col.tdiv 2)).add ⟨1, 2⟩).mul baseCellSize |>.mul scaleFactorX

/-- The center ordinate a doubled cell projects to in `fillPath`. -/
def segCenterY (baseCellSize scaleFactorY : Fr) (c : Pt) : Fr :=
  ((Fr.ofInt (c.row.tdiv 2)).add ⟨1, 2⟩).mul baseCellSize |>.mul scaleFactorY

/-- The segment `fillPath` pushes for a consecutive pair of doubled path
cells, between the projected centers. -/
def segOf (m : Maze) (areaSize : PtQ) (a b : Pt) : Seg :=
  let width : Int := areaSize.col.trunc
  let height : Int := areaSize.row.trunc
  let rows : Int := (m.rows / 2 : Nat)
  let cols : Int := (m.cols / 2 : Nat)
  let baseCellSize : Fr := Fr.ofInt (min (width.tdiv cols) (height.tdiv rows))
  let scaleFactorX : Fr := (Fr.ofInt width).div (baseCellSize.mul (Fr.ofInt cols))
  let scaleFactorY : Fr := (Fr.ofInt height).div (baseCellSize.mul (Fr.ofInt rows))
  ⟨segCenterX baseCellSize scaleFactorX a,
   segCenterY baseCellSize scaleFactorY a,
   segCenterX baseCellSize scaleFactorX b,
   segCenterY baseCellSize scaleFactorY b⟩

/-- `PathFinder::fillPath`: one segment per consecutive pair of stored
doubled path cells. -/
def fillPath (m : Maze) (path : List Pt) (config : PathRenderConfig)
    (areaSize : PtQ) : PathRenderConfig :=
  if path = [] then config
  else
    { config with
      path_ := config.path_ ++
        (path.zip path.tail).map (fun pr => segOf m areaSize pr.1 pr.2) }

/-- The bound check of `PathFinder::get`: some endpoint coordinate reaches
its logical dimension (`start_.col >= cols || start_.row >= rows ||
end_.col >= cols || end_.row >= rows` over `rows = GetRows() / 2`,
`cols = GetCols() / 2`). -/
def renderRejects (pf : PathFinder) : Prop :=
  (pf.start_.col ≥ ((pf.maze_.cols / 2 : Nat) : Int) ∨
    pf.start_.row ≥ ((pf.maze_.rows / 2 : Nat) : Int)) ∨
  (pf.end_.col ≥ ((pf.maze_.cols / 2 : Nat) : Int) ∨
    pf.end_.row ≥ ((pf.maze_.rows / 2 : Nat) : Int))

instance (pf : PathFinder) : Decidable (renderRejects pf) := by
  unfold renderRejects
  infer_instance

/-- `PathFinder::get`: the render query.  Rejects states whose endpoints
exceed the logical bounds, otherwise emits the two markers and the
polyline. -/
def get (pf : PathFinder) (areaSize : PtQ) : PathRenderConfig :=
  if renderRejects pf then emptyConfig
  else
    let config := setPointToPath pf.maze_ pf.start_ emptyConfig areaSize
    let config := setPointToPath pf.maze_ pf.end_ config areaSize
    fillPath pf.maze_ pf.path_ config areaSize

/-! ## The Q-Learning trainer -/

/-- The action alphabet, in Q-row order LEFT(0), UP(1), RIGHT(2), DOWN(3). -/
inductive Action where
  | LEFT
  | UP
  | RIGHT
  | DOWN
  deriving DecidableEq, Repr

/-- The row index of an action. -/
def actionIdx : Action → Nat
  | .LEFT => 0
  | .UP => 1
  | .RIGHT => 2
  | .DOWN => 3

/-- The action of a row index (indices stay below 4 in every use). -/
def actionOfIdx (i : Nat) : Action :=
  match i with
  | 0 => .LEFT
  | 1 => .UP
  | 2 => .RIGHT
  | _ => .DOWN

/-- `QActions::qValues`: the four Q-values of a cell, initialised to zero. -/
def qZero : List Fr := [⟨0, 1⟩, ⟨0, 1⟩, ⟨0, 1⟩, ⟨0, 1⟩]

/-- `QTable`: a dense grid of Q-rows indexed by doubled coordinates. -/
abbrev QTable := List (List (List Fr))

/-- The fresh all-zero table `QTable(rows, vector(cols, QActions()))`. -/
def qtableInit (rows cols : Nat) : QTable :=
  List.replicate rows (List.replicate cols qZero)

/-- The Q-row of a cell, `qTable[row][col]`.  The C++ vector access is
undefined out of range; the model reads an all-zero row there (the greedy
rollout is the only caller that can stray out of range, and no claim
theorem depends on the values it reads then). -/
def qtGet (qT : QTable) (p : Pt) : List Fr :=
  if 0 ≤ p.row ∧ 0 ≤ p.col then
    ((qT.getD p.row.toNat []).getD p.col.toNat qZero)
  else qZero

/-- Write one Q-value of an in-range cell (no-op out of range; training
only ever writes in range). -/
def qtSet (qT : QTable) (p : Pt) (i : Nat) (v : Fr) : QTable :=
  if 0 ≤ p.row ∧ 0 ≤ p.col then
    qT.set p.row.toNat
      ((qT.getD p.row.toNat []).set p.col.toNat
        (((qT.getD p.row.toNat []).getD p.col.toNat qZero).set i v))
  else qT

/-- The index of the first maximal element (`std::max_element` keeps the
incumbent unless a later element is strictly greater). -/
def idxMax (l : List Fr) : Nat :=
  match l with
  | [] => 0
  | x :: xs =>
    (xs.foldl (fun st y =>
      if st.2.1.blt y then (st.2.2 + 1, y, st.2.2 + 1)
      else (st.1, st.2.1, st.2.2 + 1)) ((0 : Nat), x, (0 : Nat))).1

/-- The value of the first maximal element (`*std::max_element`). -/
def valMax (l : List Fr) : Fr :=
  match l with
  | [] => ⟨0, 1⟩
  | x :: xs => xs.foldl (fun b y => if b.blt y then y else b) x

/-- `PathFinder::selectMaxAction`: greedy argmax over the Q-row. -/
def selectMaxAction (qT : QTable) (currentPos : Pt) : Action :=
  actionOfIdx (idxMax (qtGet qT currentPos))

/-- The oracle streams standing in for the per-call `std::mt19937` draws:
`rs i` is the `i`-th `uniform_real_distribution(0,1)` draw and `ks i` the
`i`-th `uniform_int_distribution(0,3)` draw. -/
structure Rng where
  rs : Nat → Fr
  ks : Nat → Fin 4

/-- The two draw counters threaded through a run. -/
structure RngState where
  rIdx : Nat
  kIdx : Nat
  deriving DecidableEq, Repr

/-- `PathFinder::selectAction`: ε-greedy selection consuming oracle draws. -/
def selectAction (rng : Rng) (st : RngState) (qT : QTable) (currentPos : Pt)
    (epsilon : Fr) : Action × RngState :=
  let r := rng.rs st.rIdx
  if r.blt epsilon then
    (actionOfIdx (rng.ks st.kIdx), ⟨st.rIdx + 1, st.kIdx + 1⟩)
  else
    (selectMaxAction qT currentPos, ⟨st.rIdx + 1, st.kIdx⟩)

/-- `PathFinder::getNextPoint`: apply an action displacement. -/
def getNextPoint (current : Pt) (action : Action) : Pt :=
  match action with
  | .LEFT => ⟨current.col - 1, current.row⟩
  | .UP => ⟨current.col, current.row - 1⟩
  | .RIGHT => ⟨current.col + 1, current.row⟩
  | .DOWN => ⟨current.col, current.row + 1⟩

/-- `PathFinder::getReward`: reward, possibly rewritten `next`, and the
terminal flag. -/
def getReward (m : Maze) (current next goal : Pt) : Fr × Pt × Bool :=
  if next = goal then (⟨10, 1⟩, next, true)
  else if ¬ isNotWall m next.col next.row then (⟨-10, 1⟩, current, true)
  else (⟨-1, 10⟩, next, false)

/-- `PathFinder::updateQTable`: the tabular Q-update. -/
def updateQTable (qT : QTable) (currentState : Pt) (action : Action)
    (next : Pt) (reward alpha gamma : Fr) : QTable :=
  let state := qtGet qT currentState
  let index := actionIdx action
  let maxQNext := valMax (qtGet qT next)
  let tgTarget := reward.add (gamma.mul maxQNext)
  let tgError := tgTarget.sub (state.getD index ⟨0, 1⟩)
  qtSet qT currentState index ((state.getD index ⟨0, 1⟩).add (alpha.mul tgError))

/-! ### The binary32 episode schedule -/

/-- Bit length minus one of a positive natural (binary exponent), computed
with structural fuel; `f32exp n` is exact for `n < 2 ^ 64`, which covers
every value `getEpisodesCount` rounds. -/
def natLog2F : Nat → Nat → Nat
  | 0, _ => 0
  | fuel + 1, n => if n ≤ 1 then 0 else natLog2F fuel (n / 2) + 1

/-- Round a nonnegative integer ratio `a / b` (with `b > 0`) to the nearest
integer, ties to even. -/
def rne (a b : Nat) : Nat :=
  let q := a / b
  let r := a % b
  if 2 * r < b then q
  else if 2 * r > b then q + 1
  else if q % 2 = 0 then q else q + 1

/-- Round a positive fraction to the nearest IEEE binary32 value (valid for
values in `[1, 2^31)`, which covers every value it is applied to; zero and
negative inputs return zero, matching the only other input that occurs). -/
def f32round (q : Fr) : Fr :=
  if q.n ≤ 0 ∨ q.d ≤ 0 then ⟨0, 1⟩
  else
    let a := q.n.toNat
    let b := q.d.toNat
    let e := natLog2F 64 (a / b)
    if e ≤ 23 then
      let s := 23 - e
      ⟨(rne (a * 2 ^ s) b : Nat), (2 ^ s : Nat)⟩
    else
      let s := e - 23
      ⟨((rne a (b * 2 ^ s) : Nat) * 2 ^ s : Nat), 1⟩

/-- The `float` literal `1.55f` (the binary32 value nearest 1.55). -/
def lit155 : Fr := ⟨13002342, 8388608⟩

/-- The first branch of `getEpisodesCount`, computed in C++ `float`
arithmetic: `static_cast<float>(rows) * 1.55f * 100.0f` truncated by the
`int` return conversion.  `rows ≤ 30` and `100.0f` are exactly
representable, so only the two products round. -/
def episodesF32 (rows : Nat) : Int :=
  (f32round ((f32round ((Fr.ofInt rows).mul lit155)).mul (Fr.ofInt 100))).trunc

/-- `PathFinder::getEpisodesCount`. -/
def getEpisodesCount (m : Maze) : Int :=
  let rows : Nat := m.rows / 2
  let cols : Nat := m.cols / 2
  let rows : Nat := if cols > rows then cols else rows
  if rows ≤ 30 then episodesF32 rows
  else if rows > 40 then (rows : Int) * 2 * 100 + 500
  else (rows : Int) * 2 * 100

/-! ### The training loop and the greedy rollout -/

/-- One episode of `QPathFinding`'s inner `while (!done)` loop, with fuel;
`none` is fuel exhaustion (an episode the C++ code would keep running). -/
def qEpisode (rng : Rng) (m : Maze) (goal : Pt) (alpha gamma epsilon : Fr) :
    Nat → QTable → Pt → RngState → Option (QTable × RngState)
  | 0, _, _, _ => none
  | fuel + 1, qT, currentState, rst =>
    let (action, rst') := selectAction rng rst qT currentState epsilon
    let next := getNextPoint currentState action
    let (reward, next', done) := getReward m currentState next goal
    let qT' := updateQTable qT currentState action next' reward alpha gamma
    if done then some (qT', rst')
    else qEpisode rng m goal alpha gamma epsilon fuel qT' next' rst'

/-- The per-episode fuel used by concrete runs; every episode a claim
evaluates terminates far below it (the scripted episodes take one or two
steps). -/
def episodeFuel : Nat := 100

/-- The episode loop of `QPathFinding`: run `remaining` episodes starting
at episode index `episode`, updating `ε ← ε₀ · exp(-0.01 · episode)` after
each episode (`expq` stands for the C library `exp`). -/
def qTrain (rng : Rng) (expq : Fr → Fr) (m : Maze) (start goal : Pt)
    (alpha gamma eInitial : Fr) :
    Nat → Nat → Fr → QTable → RngState → Option (QTable × RngState)
  | 0, _, _, qT, rst => some (qT, rst)
  | remaining + 1, episode, epsilon, qT, rst =>
    match qEpisode rng m goal alpha gamma epsilon episodeFuel qT start rst with
    | none => none
    | some (qT', rst') =>
      qTrain rng expq m start goal alpha gamma eInitial remaining (episode + 1)
        (eInitial.mul (expq ((Fr.ofInt episode).mul ⟨-1, 100⟩))) qT' rst'

/-- The greedy rollout loop of `PathFinder::buildQPath`, recording parents;
the fuel starts at 40002, matching `if (count++ > 40000)` (the C++ loop
performs its 40002nd iteration and then fails). -/
def buildLoop (qT : QTable) (pf : PathFinder) (startD endD : Pt) :
    Nat → Pt → List (Pt × Pt) → Option (OpResult × PathFinder)
  | 0, _, _ => some (⟨false, pathNotFoundMsg⟩, pf)
  | fuel + 1, current, parent =>
    if current = endD then
      match reconstructPath parent startD endD with
      | some p => some (⟨true, ""⟩, { pf with path_ := p })
      | none => none
    else
      let action := selectMaxAction qT current
      let next := getNextPoint current action
      buildLoop qT pf startD endD fuel next ((next, current) :: parent)

/-- `PathFinder::buildQPath`: roll out greedily from the doubled start
until the doubled end, then reconstruct from the parent map. -/
def buildQPath (qT : QTable) (pf : PathFinder) : Option (OpResult × PathFinder) :=
  let startD : Pt := ⟨pf.start_.col * 2, pf.start_.row * 2⟩
  let endD : Pt := ⟨pf.end_.col * 2, pf.end_.row * 2⟩
  buildLoop qT pf startD endD 40002 startD []

/-- `PathFinder::QPathFinding`: validate the endpoints, store them, train,
and extract the greedy path.  The outer `Option` is fuel divergence of an
episode or of the reconstruction walk. -/
def QPathFinding (rng : Rng) (expq : Fr → Fr) (pf : PathFinder)
    (start goal : Pt) : Option (OpResult × PathFinder) :=
  let rows : Int := (pf.maze_.rows / 2 : Nat)
  let cols : Int := (pf.maze_.cols / 2 : Nat)
  if start.col < 0 ∨ start.col ≥ cols ∨ start.row < 0 ∨ start.row ≥ rows ∨
      goal.col < 0 ∨ goal.col ≥ cols ∨ goal.row < 0 ∨ goal.row ≥ rows then
    some (⟨false, incorrectPointMsg⟩, pf)
  else
    let qT0 := qtableInit pf.maze_.rows pf.maze_.cols
    let pf1 := { pf with start_ := start, end_ := goal }
    let startD : Pt := ⟨start.col * 2, start.row * 2⟩
    let goalD : Pt := ⟨goal.col * 2, goal.row * 2⟩
    let numEpisodes := (getEpisodesCount pf.maze_).toNat
    match qTrain rng expq pf.maze_ startD goalD ⟨9, 10⟩ ⟨49, 50⟩ ⟨1, 1⟩
        numEpisodes 0 ⟨0, 1⟩ qT0 ⟨0, 0⟩ with
    | none => none
    | some (qT, _) => buildQPath qT pf1

/-! ## General lemmas about the facade wrapper -/

/-- A `findPath` call that surfaces an error surfaces `PathNotFound` from
an A* run, restoring the endpoint the setter was updating. -/
theorem findPath_err {pf : PathFinder} {b : Bool} {copy : Pt}
    {s' : PathFinder} {e : OpResult}
    (h : findPath pf b copy = some (s', some e)) :
    e = ⟨false, pathNotFoundMsg⟩ ∧ findPathAStar pf = .notFound ∧
      s' = (if b then { pf with start_ := copy } else { pf with end_ := copy }) := by
  cases b <;>
  · unfold findPath at h
    split at h
    · simp at h
    · simp only [Bool.false_eq_true, if_true, if_false, ite_true, ite_false] at h ⊢
      split at h
      · cases hA : findPathAStar pf <;> rw [hA] at h
        · simp at h
        · simp only [Option.some.injEq, Prod.mk.injEq, Option.some.injEq] at h
          exact ⟨h.2.symm, rfl, h.1.symm⟩
        · simp at h
      · simp at h

/-- A `findPath` call that returns normally leaves every field but the
path untouched. -/
theorem findPath_ok {pf : PathFinder} {b : Bool} {copy : Pt}
    {s' : PathFinder} (h : findPath pf b copy = some (s', none)) :
    s'.start_ = pf.start_ ∧ s'.end_ = pf.end_ ∧ s'.maze_ = pf.maze_ := by
  cases b <;>
  · unfold findPath at h
    split at h
    · simp only [Option.some.injEq, Prod.mk.injEq] at h
      exact h.1 ▸ ⟨rfl, rfl, rfl⟩
    · simp only [Bool.false_eq_true, if_true, if_false, ite_true, ite_false] at h
      split at h
      · cases hA : findPathAStar pf <;> rw [hA] at h
        · simp only [Option.some.injEq, Prod.mk.injEq] at h
          exact h.1 ▸ ⟨rfl, rfl, rfl⟩
        · simp at h
        · simp at h
      · simp only [Option.some.injEq, Prod.mk.injEq] at h
        exact h.1 ▸ ⟨rfl, rfl, rfl⟩

/-- A `findPath` call that returns normally on a nonempty maze with the
other endpoint set got its stored path from a successful A* run. -/
theorem findPath_triggered {pf : PathFinder} {b : Bool} {copy : Pt}
    {s' : PathFinder} (h : findPath pf b copy = some (s', none))
    (hm : ¬(pf.maze_.rows = 0 ∨ pf.maze_.cols = 0))
    (hsec : (if b then pf.end_ else pf.start_).col > -1 ∧
      (if b then pf.end_ else pf.start_).row > -1) :
    findPathAStar pf = .found s'.path_ := by
  cases b <;>
  · unfold findPath at h
    rw [if_neg hm] at h
    simp only [Bool.false_eq_true, if_true, if_false, ite_true, ite_false] at h hsec
    rw [if_pos hsec] at h
    cases hA : findPathAStar pf <;> rw [hA] at h
    · simp only [Option.some.injEq, Prod.mk.injEq] at h
      rw [← h.1]
    · simp at h
    · simp at h

/-! ## Claim C3: endpoint restoration on `PathNotFound` -/

/-- C3: whenever a `set_start` or `set_end` call triggers an A* search that
raises `PathNotFound`, the facade restores the endpoint that was being
updated (start or end respectively) to its previous value and re-raises the
error to the caller. -/
theorem claim_C3 (pf : PathFinder) (p : PtQ) (wr hr : Fr)
    (s' : PathFinder) (e : OpResult) :
    (setStartPosition pf p wr hr = some (s', some e) →
      s'.start_ = pf.start_ ∧ e = ⟨false, pathNotFoundMsg⟩) ∧
    (setEndPosition pf p wr hr = some (s', some e) →
      s'.end_ = pf.end_ ∧ e = ⟨false, pathNotFoundMsg⟩) := by
  constructor <;> intro h
  · unfold setStartPosition at h
    obtain ⟨he, _, hs⟩ := findPath_err h
    subst hs he
    exact ⟨rfl, rfl⟩
  · unfold setEndPosition at h
    obtain ⟨he, _, hs⟩ := findPath_err h
    subst hs he
    exact ⟨rfl, rfl⟩

/-- An all-wall 2×4 doubled maze: every A* search between distinct
endpoints fails on it. -/
def c3maze : Maze := ⟨2, 4, [['1', '1', '1', '1'], ['1', '1', '1', '1']]⟩

/-- The facade state with the all-wall maze and start already at (0,0). -/
def c3pf : PathFinder := { setMaze c3maze with start_ := ⟨0, 0⟩ }

/-- Witness for C3: a concrete `set_end` on an isolated maze fails and
leaves the end endpoint at its previous sentinel value. -/
theorem claim_C3_witness :
    setEndPosition c3pf ⟨⟨1, 1⟩, ⟨0, 1⟩⟩ ⟨1, 1⟩ ⟨1, 1⟩ =
      some (c3pf, some ⟨false, pathNotFoundMsg⟩) ∧
    (c3pf.end_ = c3pf.end_ ∧
      (⟨false, pathNotFoundMsg⟩ : OpResult) = ⟨false, pathNotFoundMsg⟩) :=
  ⟨by decide,
    (claim_C3 c3pf ⟨⟨1, 1⟩, ⟨0, 1⟩⟩ ⟨1, 1⟩ ⟨1, 1⟩ c3pf
      ⟨false, pathNotFoundMsg⟩).2 (by decide)⟩

/-! ## Claim C5: no clamping of stored logical indices -/

/-- A 2×2 open doubled maze (logical 1×1). -/
def c5maze : Maze := ⟨2, 2, [['0', '0'], ['0', '0']]⟩

/-- The fresh facade holding `c5maze`. -/
def c5pf : PathFinder := setMaze c5maze

/-- Counterexample to C5: a viewport point far outside the maze is stored
as the out-of-range logical index (100, 100) although the logical column
count is 1 — nothing is clamped or rejected. -/
theorem claim_C5_counterexample :
    setStartPosition c5pf ⟨⟨100, 1⟩, ⟨100, 1⟩⟩ ⟨1, 1⟩ ⟨1, 1⟩ =
      some ({ c5pf with start_ := ⟨100, 100⟩ }, none) ∧
    ¬(100 < ((c5pf.maze_.cols / 2 : Nat) : Int)) := by decide

/-- C5 (amended): the logical indices stored by a normally returning
`set_start`/`set_end` are exactly the truncated quotients
`(x / wRatio, y / hRatio)`; no range check is applied, so they may lie
outside `[0, C) × [0, R)`. -/
theorem claim_C5_amended (pf : PathFinder) (p : PtQ) (wr hr : Fr)
    (s' : PathFinder) :
    (setStartPosition pf p wr hr = some (s', none) →
      s'.start_ = ⟨(p.col.div wr).trunc, (p.row.div hr).trunc⟩) ∧
    (setEndPosition pf p wr hr = some (s', none) →
      s'.end_ = ⟨(p.col.div wr).trunc, (p.row.div hr).trunc⟩) := by
  constructor <;> intro h
  · unfold setStartPosition at h
    exact (findPath_ok h).1
  · unfold setEndPosition at h
    exact (findPath_ok h).2.1

/-- The state `claim_C5_witness` reaches. -/
def c5pf' : PathFinder := { c5pf with start_ := ⟨3, 2⟩ }

/-- Witness for the amended C5: the stored start of a concrete call is the
truncated quotient pair. -/
theorem claim_C5_witness :
    setStartPosition c5pf ⟨⟨7, 2⟩, ⟨9, 4⟩⟩ ⟨1, 1⟩ ⟨1, 1⟩ = some (c5pf', none) ∧
    c5pf'.start_ = ⟨((⟨7, 2⟩ : Fr).div ⟨1, 1⟩).trunc, ((⟨9, 4⟩ : Fr).div ⟨1, 1⟩).trunc⟩ :=
  ⟨by decide,
    (claim_C5_amended c5pf ⟨⟨7, 2⟩, ⟨9, 4⟩⟩ ⟨1, 1⟩ ⟨1, 1⟩ c5pf').1 (by decide)⟩

/-! ## Claim C8: operations on a zero-dimension grid -/

/-- Counterexample to C8: on the empty maze, `set_start` silently skips the
search but still overwrites the start endpoint — the call is not a no-op. -/
theorem claim_C8_counterexample :
    setStartPosition PathFinder.init ⟨⟨5, 1⟩, ⟨5, 1⟩⟩ ⟨1, 1⟩ ⟨1, 1⟩ =
      some ({ PathFinder.init with start_ := ⟨5, 5⟩ }, none) ∧
    ({ PathFinder.init with start_ := ⟨5, 5⟩ } : PathFinder) ≠ PathFinder.init := by
  decide

/-- C8 (amended): on a grid with zero rows or zero columns, `set_start` and
`set_end` return without error, leave the path and the other endpoint
untouched, but store the newly computed endpoint; `q_find` rejects every
input with `{false, "Incorrect point"}` and mutates nothing. -/
theorem claim_C8_amended (pf : PathFinder)
    (h : pf.maze_.rows = 0 ∨ pf.maze_.cols = 0)
    (p : PtQ) (wr hr : Fr) (st gl : Pt) (rng : Rng) (expq : Fr → Fr) :
    setStartPosition pf p wr hr =
      some ({ pf with start_ := ⟨(p.col.div wr).trunc, (p.row.div hr).trunc⟩ }, none) ∧
    setEndPosition pf p wr hr =
      some ({ pf with end_ := ⟨(p.col.div wr).trunc, (p.row.div hr).trunc⟩ }, none) ∧
    QPathFinding rng expq pf st gl = some (⟨false, incorrectPointMsg⟩, pf) := by
  refine ⟨?_, ?_, ?_⟩
  · unfold setStartPosition findPath
    rw [if_pos (by simpa using h)]
  · unfold setEndPosition findPath
    rw [if_pos (by simpa using h)]
  · unfold QPathFinding
    rw [if_pos ?cond]
    case cond => rcases h with h | h <;> simp only [h] <;> omega

/-- The constant oracle used by concrete zero-dimension runs. -/
def rng0 : Rng := ⟨fun _ => ⟨0, 1⟩, fun _ => 0⟩

/-- The constant stand-in for `exp` used by concrete runs that never
consult it. -/
def expq0 : Fr → Fr := fun _ => ⟨1, 1⟩

/-- Witness for the amended C8 on the default-constructed engine. -/
theorem claim_C8_witness :
    (PathFinder.init.maze_.rows = 0 ∨ PathFinder.init.maze_.cols = 0) ∧
    (setStartPosition PathFinder.init ⟨⟨5, 1⟩, ⟨5, 1⟩⟩ ⟨1, 1⟩ ⟨1, 1⟩ =
      some ({ PathFinder.init with
        start_ := ⟨((⟨5, 1⟩ : Fr).div ⟨1, 1⟩).trunc, ((⟨5, 1⟩ : Fr).div ⟨1, 1⟩).trunc⟩ }, none) ∧
    setEndPosition PathFinder.init ⟨⟨5, 1⟩, ⟨5, 1⟩⟩ ⟨1, 1⟩ ⟨1, 1⟩ =
      some ({ PathFinder.init with
        end_ := ⟨((⟨5, 1⟩ : Fr).div ⟨1, 1⟩).trunc, ((⟨5, 1⟩ : Fr).div ⟨1, 1⟩).trunc⟩ }, none) ∧
    QPathFinding rng0 expq0 PathFinder.init ⟨0, 0⟩ ⟨0, 0⟩ =
      some (⟨false, incorrectPointMsg⟩, PathFinder.init)) :=
  ⟨Or.inl rfl,
    claim_C8_amended PathFinder.init (Or.inl rfl) ⟨⟨5, 1⟩, ⟨5, 1⟩⟩ ⟨1, 1⟩ ⟨1, 1⟩
      ⟨0, 0⟩ ⟨0, 0⟩ rng0 expq0⟩

/-! ## Claim C4: the episode schedule -/

/-- The values of `M ≤ 30` at which the binary32 computation
`float(M) * 1.55f * 100.0f` falls just below the exact `155 · M` and the
`int` conversion truncates it to `155 · M - 1`. -/
def f32ShortM : List Nat := [3, 6, 11, 12, 17, 22, 23, 24, 29]

/-- The binary32 branch of the episode schedule, tabulated for every
`M ≤ 30`. -/
theorem episodesF32_table :
    ∀ M, M < 31 →
      episodesF32 M = 155 * M - (if M ∈ f32ShortM then 1 else 0) := by decide

/-- Counterexample to C4: at logical size `M = 3` the code computes 464
episodes while `⌊3 · 1.55 · 100⌋ = 465`. -/
theorem claim_C4_counterexample :
    getEpisodesCount ⟨6, 6, []⟩ = 464 ∧ ⌊(3 : ℚ) * (31 / 20) * 100⌋ = 465 := by
  refine ⟨by decide, ?_⟩
  have h : (3 : ℚ) * (31 / 20) * 100 = 465 := by norm_num
  rw [h]
  exact_mod_cast Int.floor_intCast 465

/-- The logical size `M = max(R, C)` of a doubled maze. -/
def logicalMax (m : Maze) : Nat := max (m.rows / 2) (m.cols / 2)

/-- C4 (amended): with `M = max(R, C)`, the episode count is
`M · 200 + 500` for `M > 40` and `M · 200` for `30 < M ≤ 40` as claimed,
but for `M ≤ 30` the single-precision product `float(M) · 1.55f · 100.0f`
truncates to `155 · M - 1` (instead of `⌊155 · M⌋ = 155 · M`) whenever
`M ∈ {3, 6, 11, 12, 17, 22, 23, 24, 29}`. -/
theorem claim_C4_amended (m : Maze) :
    getEpisodesCount m =
      (if logicalMax m ≤ 30 then
        155 * (logicalMax m : Int) - (if logicalMax m ∈ f32ShortM then 1 else 0)
      else if 40 < logicalMax m then (logicalMax m : Int) * 200 + 500
      else (logicalMax m : Int) * 200) := by
  have hmax : (if m.cols / 2 > m.rows / 2 then m.cols / 2 else m.rows / 2) =
      logicalMax m := by
    unfold logicalMax
    rcases Nat.lt_or_ge (m.rows / 2) (m.cols / 2) with h | h
    · rw [if_pos h, Nat.max_eq_right (Nat.le_of_lt h)]
    · rw [if_neg (by omega), Nat.max_eq_left h]
  show (let rows := m.rows / 2;
    let cols := m.cols / 2;
    let rows := if cols > rows then cols else rows;
    if rows ≤ 30 then episodesF32 rows
    else if rows > 40 then (rows : Int) * 2 * 100 + 500
    else (rows : Int) * 2 * 100) = _
  simp only []
  rw [hmax]
  by_cases h30 : logicalMax m ≤ 30
  · rw [if_pos h30, if_pos h30]
    exact episodesF32_table (logicalMax m) (by omega)
  · rw [if_neg h30, if_neg h30]
    by_cases h40 : logicalMax m > 40
    · rw [if_pos h40, if_pos h40]; ring
    · rw [if_neg h40, if_neg h40]; ring

/-! ## Claim C6: the render guard -/

/-- A state on the open 1×1-logical maze whose end is set but whose start
is still the `(-1, -1)` sentinel. -/
def c6pf : PathFinder := { setMaze c5maze with end_ := ⟨0, 0⟩ }

/-- A 4×4 viewport. -/
def areaQ : PtQ := ⟨⟨4, 1⟩, ⟨4, 1⟩⟩

/-- Counterexample to C6: a state that passes the bound check but has an
unset start endpoint renders only one marker, not the claimed start marker
plus end marker. -/
theorem claim_C6_counterexample :
    ¬ renderRejects c6pf ∧ (get c6pf areaQ).points_.length = 1 := by decide

/-- C6 (amended): `render` returns the empty config exactly when some
endpoint coordinate reaches its logical dimension; otherwise it emits a
marker for each endpoint both of whose coordinates exceed the `-1`
sentinel (an unset endpoint is skipped), followed by one segment per
consecutive pair of stored path cells. -/
theorem claim_C6_amended (pf : PathFinder) (area : PtQ) :
    (renderRejects pf → get pf area = emptyConfig) ∧
    (¬ renderRejects pf →
      get pf area =
        ⟨(if pf.start_.row > -1 ∧ pf.start_.col > -1 then
            [markerRect pf.maze_ pf.start_ area] else []) ++
          (if pf.end_.row > -1 ∧ pf.end_.col > -1 then
            [markerRect pf.maze_ pf.end_ area] else []),
          (pf.path_.zip pf.path_.tail).map
            (fun pr => segOf pf.maze_ area pr.1 pr.2)⟩) := by
  constructor
  · intro h
    unfold get
    rw [if_pos h]
  · intro h
    unfold get
    rw [if_neg h]
    unfold setPointToPath fillPath
    by_cases h1 : pf.start_.row > -1 ∧ pf.start_.col > -1 <;>
      by_cases h2 : pf.end_.row > -1 ∧ pf.end_.col > -1 <;>
      by_cases h3 : pf.path_ = [] <;>
      simp [h1, h2, h3, emptyConfig]

/-- A state rejected by the render bound check. -/
def c6pfBad : PathFinder := { setMaze c5maze with start_ := ⟨5, 0⟩ }

/-- Witness for the amended C6: both branches applied at concrete states. -/
theorem claim_C6_witness :
    (renderRejects c6pfBad ∧ get c6pfBad areaQ = emptyConfig) ∧
    (¬ renderRejects c6pf ∧
      get c6pf areaQ =
        ⟨(if c6pf.start_.row > -1 ∧ c6pf.start_.col > -1 then
            [markerRect c6pf.maze_ c6pf.start_ areaQ] else []) ++
          (if c6pf.end_.row > -1 ∧ c6pf.end_.col > -1 then
            [markerRect c6pf.maze_ c6pf.end_ areaQ] else []),
          (c6pf.path_.zip c6pf.path_.tail).map
            (fun pr => segOf c6pf.maze_ areaQ pr.1 pr.2)⟩) :=
  ⟨⟨by decide, (claim_C6_amended c6pfBad areaQ).1 (by decide)⟩,
    ⟨by decide, (claim_C6_amended c6pf areaQ).2 (by decide)⟩⟩

/-! ## A* machinery: discovery indices, association lookups, queue pops -/

/-- 4-adjacency of doubled cells: the coordinates differ by one unit step. -/
def adjPt (a b : Pt) : Prop :=
  (a.col - b.col).natAbs + (a.row - b.row).natAbs = 1

theorem adjPt_symm {a b : Pt} (h : adjPt a b) : adjPt b a := by
  unfold adjPt at h ⊢
  omega

/-- The discovery index of a point in the visited list. -/
def idxIn : List Pt → Pt → Nat
  | [], _ => 0
  | x :: xs, p => if x = p then 0 else idxIn xs p + 1

theorem idxIn_lt_length {l : List Pt} {p : Pt} (h : p ∈ l) :
    idxIn l p < l.length := by
  induction l with
  | nil => cases h
  | cons x xs ih =>
    unfold idxIn
    split
    · simp
    · next hne =>
      have : p ∈ xs := by
        rcases List.mem_cons.mp h with h' | h'
        · exact absurd h'.symm hne
        · exact h'
      simpa [Nat.succ_lt_succ_iff] using ih this

theorem idxIn_append_of_mem {l : List Pt} {p : Pt} (h : p ∈ l) (x : Pt) :
    idxIn (l ++ [x]) p = idxIn l p := by
  induction l with
  | nil => cases h
  | cons y ys ih =>
    rw [List.cons_append]
    by_cases hy : y = p
    · simp [idxIn, hy]
    · have hp : p ∈ ys := by
        rcases List.mem_cons.mp h with h' | h'
        · exact absurd h'.symm hy
        · exact h'
      simp [idxIn, hy, ih hp]

theorem idxIn_append_self {l : List Pt} {p : Pt} (h : p ∉ l) :
    idxIn (l ++ [p]) p = l.length := by
  induction l with
  | nil => simp [idxIn]
  | cons y ys ih =>
    have hy : ¬(y = p) := fun he => h (he ▸ List.mem_cons_self y ys)
    have hp : p ∉ ys := fun hm => h (List.mem_cons_of_mem y hm)
    rw [List.cons_append]
    simp [idxIn, hy, ih hp]

/-- A successful association lookup returns a member binding. -/
theorem alookup_mem {l : List (Pt × Pt)} {k v : Pt}
    (h : alookup l k = some v) : (k, v) ∈ l := by
  induction l with
  | nil => simp [alookup] at h
  | cons kv rest ih =>
    unfold alookup at h
    split at h
    · next he =>
      cases h
      exact he ▸ List.mem_cons_self _ _
    · exact List.mem_cons_of_mem _ (ih h)

theorem foldl_min_mem (x : Int × Pt) (xs : List (Int × Pt)) :
    (xs.foldl (fun b y => if pairLt y b then y else b) x) ∈ x :: xs := by
  induction xs generalizing x with
  | nil => simp
  | cons y ys ih =>
    simp only [List.foldl_cons]
    rcases List.mem_cons.mp (ih (if pairLt y x then y else x)) with h | h
    · rw [h]
      split
      · exact List.mem_cons_of_mem _ (List.mem_cons_self _ _)
      · exact List.mem_cons_self _ _
    · exact List.mem_cons_of_mem _ (List.mem_cons_of_mem _ h)

theorem removeFirst_subset (x : Int × Pt) :
    ∀ l : List (Int × Pt), ∀ y ∈ removeFirst x l, y ∈ l := by
  intro l
  induction l with
  | nil => intro y hy; cases hy
  | cons z zs ih =>
    intro y hy
    unfold removeFirst at hy
    split at hy
    · exact List.mem_cons_of_mem _ hy
    · rcases List.mem_cons.mp hy with h | h
      · exact h ▸ List.mem_cons_self _ _
      · exact List.mem_cons_of_mem _ (ih y h)

theorem popMin_mem {pq : List (Int × Pt)} {x : Int × Pt}
    {rest : List (Int × Pt)} (h : popMin pq = some (x, rest)) : x ∈ pq := by
  cases pq with
  | nil => simp [popMin] at h
  | cons z zs =>
    unfold popMin at h
    simp only [Option.some.injEq, Prod.mk.injEq] at h
    exact h.1 ▸ foldl_min_mem z zs

theorem popMin_rest_subset {pq : List (Int × Pt)} {x : Int × Pt}
    {rest : List (Int × Pt)} (h : popMin pq = some (x, rest)) :
    ∀ y ∈ rest, y ∈ pq := by
  cases pq with
  | nil => simp [popMin] at h
  | cons z zs =>
    unfold popMin at h
    simp only [Option.some.injEq, Prod.mk.injEq] at h
    exact fun y hy => removeFirst_subset _ _ y (h.2 ▸ hy)

/-! ## The A* loop invariant -/

/-- The invariant of the A* loop state `(pq, visited, parent)`:
queued cells are discovered, the start heads the discovery list, every
parent binding joins a discovered passage cell to an earlier-discovered
neighbour, and every discovered cell except the start has a binding. -/
structure AInv (m : Maze) (start : Pt) (pq : List (Int × Pt))
    (visited : List Pt) (parent : List (Pt × Pt)) : Prop where
  pq_vis : ∀ fp ∈ pq, (fp : Int × Pt).2 ∈ visited
  head : ∃ rest, visited = start :: rest
  nodup : visited.Nodup
  bind_props : ∀ kv ∈ parent, (kv : Pt × Pt).1 ∈ visited ∧ kv.2 ∈ visited ∧
    isNotWall m kv.1.col kv.1.row = true ∧ adjPt kv.2 kv.1 ∧
    idxIn visited kv.2 < idxIn visited kv.1
  has_parent : ∀ p ∈ visited, p ≠ start → (alookup parent p).isSome
  len : visited.length = parent.length + 1

/-- The reconstruction walk from any discovered cell terminates at the
start and yields a chain of pairwise adjacent cells all of which, except
the final start, are passages. -/
theorem reconWalk_chain {m : Maze} {start : Pt} {visited : List Pt}
    {parent : List (Pt × Pt)}
    (hbind : ∀ kv ∈ parent, (kv : Pt × Pt).1 ∈ visited ∧ kv.2 ∈ visited ∧
      isNotWall m kv.1.col kv.1.row = true ∧ adjPt kv.2 kv.1 ∧
      idxIn visited kv.2 < idxIn visited kv.1)
    (hhas : ∀ p ∈ visited, p ≠ start → (alookup parent p).isSome) :
    ∀ n (cur : Pt), cur ∈ visited → idxIn visited cur < n → ∀ acc,
      ∃ chain, reconWalk parent start n cur acc = some (acc ++ chain) ∧
        chain.head? = some cur ∧ chain.getLast? = some start ∧
        List.Chain' adjPt chain ∧
        (∀ x ∈ chain.dropLast, isNotWall m x.col x.row = true) := by
  intro n
  induction n with
  | zero => intro cur _ hidx; omega
  | succ n ih =>
    intro cur hcur hidx acc
    by_cases hcs : cur = start
    · refine ⟨[start], ?_, ?_, ?_, ?_, ?_⟩
      · unfold reconWalk
        rw [if_pos hcs]
      · rw [hcs]; rfl
      · rfl
      · simp
      · simp [List.dropLast]
    · have hsome := hhas cur hcur hcs
      obtain ⟨v, hv⟩ : ∃ v, alookup parent cur = some v :=
        Option.isSome_iff_exists.mp hsome
      obtain ⟨hkmem, hvmem, hwall, hadj, hlt⟩ := hbind _ (alookup_mem hv)
      simp only at hkmem hvmem hwall hadj hlt
      have hvn : idxIn visited v < n := by omega
      obtain ⟨chain', hwalk, hhd, hlast, hchain, hpass⟩ :=
        ih v hvmem hvn (acc ++ [cur])
      obtain ⟨c, cs, rfl⟩ : ∃ c cs, chain' = c :: cs := by
        cases chain' with
        | nil => simp at hhd
        | cons c cs => exact ⟨c, cs, rfl⟩
      have hcv : c = v := by simpa using hhd
      subst hcv
      refine ⟨cur :: c :: cs, ?_, rfl, ?_, ?_, ?_⟩
      · unfold reconWalk
        rw [if_neg hcs, hv]
        simp only []
        rw [hwalk]
        simp
      · rw [List.getLast?_cons_cons]
        exact hlast
      · exact List.chain'_cons.mpr ⟨adjPt_symm hadj, hchain⟩
      · intro x hx
        rw [List.dropLast_cons₂] at hx
        rcases List.mem_cons.mp hx with h | h
        · exact h ▸ hwall
        · exact hpass x h

/-- One neighbour-scan step preserves the invariant and discovered
membership. -/
theorem scanDir_inv {m : Maze} {goal start cur : Pt}
    {st : List (Int × Pt) × List Pt × List (Pt × Pt)} {d : Int × Int}
    (hd : d ∈ dirOrder) (hcur : cur ∈ st.2.1)
    (hinv : AInv m start st.1 st.2.1 st.2.2) :
    AInv m start (scanDir m goal start cur st d).1
      (scanDir m goal start cur st d).2.1 (scanDir m goal start cur st d).2.2 ∧
    cur ∈ (scanDir m goal start cur st d).2.1 := by
  obtain ⟨pq, visited, parent⟩ := st
  simp only at hcur hinv ⊢
  unfold scanDir
  dsimp only
  split
  · next hg =>
    obtain ⟨hwall, hnv⟩ := hg
    simp only
    set next : Pt := ⟨cur.col + d.1, cur.row + d.2⟩ with hnext
    have hadj : adjPt cur next := by
      simp only [dirOrder, List.mem_cons] at hd
      unfold adjPt
      rcases hd with rfl | rfl | rfl | rfl | h
      · simp [hnext]
      · simp [hnext]
      · simp [hnext]
      · simp [hnext]
      · cases h
    refine ⟨⟨?_, ?_, ?_, ?_, ?_, ?_⟩, List.mem_append_left _ hcur⟩
    · intro fp hfp
      rcases List.mem_cons.mp hfp with h | h
      · rw [h]
        exact List.mem_append_right _ (List.mem_singleton_self _)
      · exact List.mem_append_left _ (hinv.pq_vis fp h)
    · obtain ⟨rest, hrest⟩ := hinv.head
      exact ⟨rest ++ [next], by rw [hrest, List.cons_append]⟩
    · rw [List.nodup_append]
      exact ⟨hinv.nodup, List.nodup_singleton _,
        fun a ha hb => hnv ((List.mem_singleton.mp hb) ▸ ha)⟩
    · intro kv hkv
      rcases List.mem_cons.mp hkv with h | h
      · rw [h]
        refine ⟨List.mem_append_right _ (List.mem_singleton_self _),
          List.mem_append_left _ hcur, hwall, hadj, ?_⟩
        rw [idxIn_append_of_mem hcur, idxIn_append_self hnv]
        exact idxIn_lt_length hcur
      · obtain ⟨h1, h2, h3, h4, h5⟩ := hinv.bind_props kv h
        exact ⟨List.mem_append_left _ h1, List.mem_append_left _ h2, h3, h4, by
          rw [idxIn_append_of_mem h2, idxIn_append_of_mem h1]; exact h5⟩
    · intro p hp hps
      rcases List.mem_append.mp hp with h | h
      · unfold alookup
        have : next ≠ p := fun he => hnv (he ▸ h)
        rw [if_neg this]
        exact hinv.has_parent p h hps
      · unfold alookup
        rw [if_pos (List.mem_singleton.mp h).symm]
        rfl
    · simp only [List.length_append, List.length_singleton, List.length_cons,
        List.length_nil]
      have := hinv.len
      omega
  · exact ⟨hinv, hcur⟩

/-- The whole neighbour fold preserves the invariant and membership. -/
theorem foldScan_inv {m : Maze} {goal start cur : Pt} :
    ∀ (l : List (Int × Int)), (∀ d ∈ l, d ∈ dirOrder) →
    ∀ (st : List (Int × Pt) × List Pt × List (Pt × Pt)),
      cur ∈ st.2.1 → AInv m start st.1 st.2.1 st.2.2 →
      AInv m start (l.foldl (scanDir m goal start cur) st).1
        (l.foldl (scanDir m goal start cur) st).2.1
        (l.foldl (scanDir m goal start cur) st).2.2 := by
  intro l
  induction l with
  | nil => intro _ st hcur hinv; exact hinv
  | cons d ds ih =>
    intro hsub st hcur hinv
    rw [List.foldl_cons]
    obtain ⟨hinv', hcur'⟩ :=
      @scanDir_inv m goal start cur st d (hsub d (List.mem_cons_self _ _))
        hcur hinv
    exact ih (fun x hx => hsub x (List.mem_cons_of_mem _ hx)) _ hcur' hinv'

/-- Every path the A* loop returns is nonempty, goal-first, start-last,
a 4-adjacent chain, and made of passages except possibly its final
element (the doubled start). -/
theorem astarLoop_found {m : Maze} {goal start : Pt} :
    ∀ (fuel : Nat) (pq : List (Int × Pt)) (visited : List Pt)
      (parent : List (Pt × Pt)), AInv m start pq visited parent →
      ∀ p, astarLoop m goal start fuel pq visited parent = .found p →
      p ≠ [] ∧ p.head? = some goal ∧ p.getLast? = some start ∧
      List.Chain' adjPt p ∧
      (∀ x ∈ p.dropLast, isNotWall m x.col x.row = true) := by
  intro fuel
  induction fuel with
  | zero =>
    intro pq visited parent _ p h
    simp [astarLoop] at h
  | succ fuel ih =>
    intro pq visited parent hinv p h
    unfold astarLoop at h
    cases hpop : popMin pq with
    | none => rw [hpop] at h; simp at h
    | some top =>
      obtain ⟨⟨f, cur⟩, pq'⟩ := top
      rw [hpop] at h
      simp only at h
      split at h
      · next hgoal =>
        have hcv : cur ∈ visited := hinv.pq_vis _ (popMin_mem hpop)
        cases hrec : reconstructPath parent start goal with
        | none => rw [hrec] at h; simp at h
        | some p' =>
          rw [hrec] at h
          simp only [AStarOut.found.injEq] at h
          subst h
          have hgv : goal ∈ visited := hgoal ▸ hcv
          have hidx : idxIn visited goal < parent.length + 1 := by
            have h1 := idxIn_lt_length hgv
            have h2 := hinv.len
            omega
          obtain ⟨chain, hwalk, hhd, hlast, hchain, hpass⟩ :=
            reconWalk_chain hinv.bind_props hinv.has_parent
              (parent.length + 1) goal hgv hidx []
          unfold reconstructPath at hrec
          rw [hwalk] at hrec
          simp only [List.nil_append, Option.some.injEq] at hrec
          subst hrec
          refine ⟨?_, hhd, hlast, hchain, hpass⟩
          intro hne
          rw [hne] at hhd
          simp at hhd
      · have hcv : cur ∈ visited := hinv.pq_vis _ (popMin_mem hpop)
        have hinv' : AInv m start pq' visited parent :=
          { hinv with pq_vis := fun fp hfp =>
              hinv.pq_vis fp (popMin_rest_subset hpop fp hfp) }
        exact ih _ _ _
          (foldScan_inv dirOrder (fun d hd => hd) (pq', visited, parent)
            hcv hinv') p h

/-- The path properties of every successful `findPathAStar` run: the found
path is nonempty, runs from the doubled end to the doubled start, steps
through 4-adjacent doubled cells, and every cell except possibly the final
doubled start is a passage. -/
theorem findPathAStar_found {pf : PathFinder} {p : List Pt}
    (h : findPathAStar pf = .found p) :
    p ≠ [] ∧ p.head? = some ⟨pf.end_.col * 2, pf.end_.row * 2⟩ ∧
    p.getLast? = some ⟨pf.start_.col * 2, pf.start_.row * 2⟩ ∧
    List.Chain' adjPt p ∧
    (∀ x ∈ p.dropLast, isNotWall pf.maze_ x.col x.row = true) := by
  have hinv : AInv pf.maze_ ⟨pf.start_.col * 2, pf.start_.row * 2⟩
      [(calculateHeuristic ⟨pf.start_.col * 2, pf.start_.row * 2⟩
          ⟨pf.end_.col * 2, pf.end_.row * 2⟩,
        (⟨pf.start_.col * 2, pf.start_.row * 2⟩ : Pt))]
      [⟨pf.start_.col * 2, pf.start_.row * 2⟩] [] := by
    refine ⟨?_, ⟨[], rfl⟩, List.nodup_singleton _, ?_, ?_, rfl⟩
    · intro fp hfp
      rw [List.mem_singleton.mp hfp]
      exact List.mem_singleton_self _
    · intro kv hkv
      cases hkv
    · intro q hq hqs
      exact absurd (List.mem_singleton.mp hq) hqs
  exact astarLoop_found _ _ _ _ hinv p h

/-! ## Claim C2: properties of the stored A* path -/

/-- An all-wall 2×2 doubled maze. -/
def c2maze : Maze := ⟨2, 2, [['1', '1'], ['1', '1']]⟩

/-- The all-wall maze with start already set at (0,0). -/
def c2pf : PathFinder := { setMaze c2maze with start_ := ⟨0, 0⟩ }

/-- Counterexample to C2: a successful `set_end` that triggers A* with both
endpoints at the same logical cell stores the one-element path `[(0,0)]`
although cell (0,0) is a wall — not every stored path coordinate satisfies
`is_passage`. -/
theorem claim_C2_counterexample :
    setEndPosition c2pf ⟨⟨0, 1⟩, ⟨0, 1⟩⟩ ⟨1, 1⟩ ⟨1, 1⟩ =
      some ({ c2pf with end_ := ⟨0, 0⟩, path_ := [⟨0, 0⟩] }, none) ∧
    ¬(c2pf.maze_.rows = 0 ∨ c2pf.maze_.cols = 0) ∧
    (c2pf.start_.col > -1 ∧ c2pf.start_.row > -1) ∧
    isNotWall c2maze 0 0 = false := by decide

/-- C2 (amended): after a successful `set_start`/`set_end` that triggers
A*, the stored path is non-empty, starts at the doubled end, finishes at
the doubled start, consecutive cells are 4-adjacent — and every coordinate
except possibly the last one (the doubled start itself, which the search
enqueues without a passage check) satisfies `is_passage`. -/
theorem claim_C2_amended (pf : PathFinder) (p : PtQ) (wr hr : Fr)
    (s' : PathFinder) :
    (setStartPosition pf p wr hr = some (s', none) →
      ¬(pf.maze_.rows = 0 ∨ pf.maze_.cols = 0) →
      pf.end_.col > -1 ∧ pf.end_.row > -1 →
      s'.path_ ≠ [] ∧
      s'.path_.head? = some ⟨s'.end_.col * 2, s'.end_.row * 2⟩ ∧
      s'.path_.getLast? = some ⟨s'.start_.col * 2, s'.start_.row * 2⟩ ∧
      List.Chain' adjPt s'.path_ ∧
      (∀ x ∈ s'.path_.dropLast, isNotWall s'.maze_ x.col x.row = true)) ∧
    (setEndPosition pf p wr hr = some (s', none) →
      ¬(pf.maze_.rows = 0 ∨ pf.maze_.cols = 0) →
      pf.start_.col > -1 ∧ pf.start_.row > -1 →
      s'.path_ ≠ [] ∧
      s'.path_.head? = some ⟨s'.end_.col * 2, s'.end_.row * 2⟩ ∧
      s'.path_.getLast? = some ⟨s'.start_.col * 2, s'.start_.row * 2⟩ ∧
      List.Chain' adjPt s'.path_ ∧
      (∀ x ∈ s'.path_.dropLast, isNotWall s'.maze_ x.col x.row = true)) := by
  constructor <;> intro h hm hsec
  · unfold setStartPosition at h
    obtain ⟨hs, he, hmz⟩ := findPath_ok h
    have htr := findPath_triggered h hm hsec
    obtain ⟨h1, h2, h3, h4, h5⟩ := findPathAStar_found htr
    refine ⟨h1, ?_, ?_, h4, ?_⟩
    · rw [he]; exact h2
    · rw [hs]; exact h3
    · rw [hmz]; exact h5
  · unfold setEndPosition at h
    obtain ⟨hs, he, hmz⟩ := findPath_ok h
    have htr := findPath_triggered h hm hsec
    obtain ⟨h1, h2, h3, h4, h5⟩ := findPathAStar_found htr
    refine ⟨h1, ?_, ?_, h4, ?_⟩
    · rw [he]; exact h2
    · rw [hs]; exact h3
    · rw [hmz]; exact h5

/-- An open 2×4 doubled maze (logical 1×2). -/
def c2mazeW : Maze := ⟨2, 4, [['0', '0', '0', '0'], ['0', '0', '0', '0']]⟩

/-- The open maze with start at (0,0). -/
def c2pfW : PathFinder := { setMaze c2mazeW with start_ := ⟨0, 0⟩ }

/-- The state after a successful `set_end` to (1,0) on `c2pfW`. -/
def c2pfW' : PathFinder :=
  { c2pfW with end_ := ⟨1, 0⟩, path_ := [⟨2, 0⟩, ⟨1, 0⟩, ⟨0, 0⟩] }

/-- Witness for the amended C2: a concrete solvable `set_end` run. -/
theorem claim_C2_witness :
    (setEndPosition c2pfW ⟨⟨1, 1⟩, ⟨0, 1⟩⟩ ⟨1, 1⟩ ⟨1, 1⟩ = some (c2pfW', none) ∧
      ¬(c2pfW.maze_.rows = 0 ∨ c2pfW.maze_.cols = 0) ∧
      (c2pfW.start_.col > -1 ∧ c2pfW.start_.row > -1)) ∧
    (c2pfW'.path_ ≠ [] ∧
      c2pfW'.path_.head? = some ⟨c2pfW'.end_.col * 2, c2pfW'.end_.row * 2⟩ ∧
      c2pfW'.path_.getLast? = some ⟨c2pfW'.start_.col * 2, c2pfW'.start_.row * 2⟩ ∧
      List.Chain' adjPt c2pfW'.path_ ∧
      (∀ x ∈ c2pfW'.path_.dropLast, isNotWall c2pfW'.maze_ x.col x.row = true)) :=
  ⟨⟨by decide, by decide, by decide⟩,
    (claim_C2_amended c2pfW ⟨⟨1, 1⟩, ⟨0, 1⟩⟩ ⟨1, 1⟩ ⟨1, 1⟩ c2pfW').2
      (by decide) (by decide) (by decide)⟩

/-! ## Claim C10: coincident endpoints -/

/-- When the stored endpoints coincide, the A* search succeeds immediately:
the doubled start is popped first, equals the goal, and reconstruction over
the empty parent map yields the one-element path. -/
theorem findPathAStar_same (pf : PathFinder) (h : pf.end_ = pf.start_) :
    findPathAStar pf = .found [⟨pf.start_.col * 2, pf.start_.row * 2⟩] := by
  have h2 : pf.maze_.rows * pf.maze_.cols + 2 =
      (pf.maze_.rows * pf.maze_.cols + 1) + 1 := rfl
  unfold findPathAStar
  rw [h, h2]
  simp [astarLoop, popMin, removeFirst, reconstructPath, reconWalk]

/-- The facade state after `set_start` stored the cell `c`. -/
def startedAt (m : Maze) (c : Pt) : PathFinder := { setMaze m with start_ := c }

/-- The facade state after both endpoints were set to the cell `c` and A*
stored the one-element path. -/
def sameCellState (m : Maze) (c : Pt) : PathFinder :=
  { start_ := c, end_ := c, path_ := [⟨c.col * 2, c.row * 2⟩], maze_ := m }

/-- C10: if start and end are set (through the facade) to the same in-range
logical cell, the A* search succeeds, stores the one-element path holding
the doubled cell (no passage check is applied to it), and a subsequent
render emits two coincident markers and no segments. -/
theorem claim_C10 (m : Maze) (c : Pt) (area : PtQ)
    (hcol : 0 ≤ c.col ∧ c.col < ((m.cols / 2 : Nat) : Int))
    (hrow : 0 ≤ c.row ∧ c.row < ((m.rows / 2 : Nat) : Int)) :
    setStartPosition (setMaze m) ⟨⟨c.col, 1⟩, ⟨c.row, 1⟩⟩ ⟨1, 1⟩ ⟨1, 1⟩ =
      some (startedAt m c, none) ∧
    setEndPosition (startedAt m c) ⟨⟨c.col, 1⟩, ⟨c.row, 1⟩⟩ ⟨1, 1⟩ ⟨1, 1⟩ =
      some (sameCellState m c, none) ∧
    (get (sameCellState m c) area).points_ =
      [markerRect m c area, markerRect m c area] ∧
    (get (sameCellState m c) area).path_ = [] := by
  have hdiv1 : ((⟨c.col, 1⟩ : Fr).div ⟨1, 1⟩).trunc = c.col := by
    simp [Fr.div, Fr.trunc]
  have hdiv2 : ((⟨c.row, 1⟩ : Fr).div ⟨1, 1⟩).trunc = c.row := by
    simp [Fr.div, Fr.trunc]
  have hmz : ¬(m.rows = 0 ∨ m.cols = 0) := by
    intro hc
    rcases hc with hc | hc <;> omega
  have hrej : ¬ renderRejects (sameCellState m c) := by
    unfold renderRejects sameCellState
    dsimp only
    omega
  have hcc : c.col > -1 ∧ c.row > -1 := ⟨by omega, by omega⟩
  have hsame : findPathAStar (sameCellState m c) =
      .found [⟨c.col * 2, c.row * 2⟩] := findPathAStar_same _ rfl
  refine ⟨?_, ?_, ?_, ?_⟩
  · unfold setStartPosition findPath
    simp only [hdiv1, hdiv2, startedAt, setMaze]
    rw [if_neg hmz]
    simp
  · have hsame2 : findPathAStar
        { start_ := c, end_ := ⟨c.col, c.row⟩, path_ := ([] : List Pt), maze_ := m } =
        .found [⟨c.col * 2, c.row * 2⟩] :=
      findPathAStar_same
        { start_ := c, end_ := ⟨c.col, c.row⟩, path_ := ([] : List Pt), maze_ := m } rfl
    unfold setEndPosition findPath
    simp [hdiv1, hdiv2, startedAt, setMaze, hmz, hcc, hsame2, sameCellState]
  · unfold get
    rw [if_neg hrej]
    unfold setPointToPath fillPath
    simp [sameCellState, emptyConfig, hcc.1, hcc.2]
  · unfold get
    rw [if_neg hrej]
    unfold setPointToPath fillPath
    simp [sameCellState, emptyConfig, hcc.1, hcc.2]

/-- Witness for C10 on the all-wall maze `c2maze`: the shared cell (0,0)
is a wall, yet the run succeeds and renders two coincident markers. -/
theorem claim_C10_witness :
    ((0 : Int) ≤ 0 ∧ (0 : Int) < ((c2maze.cols / 2 : Nat) : Int)) ∧
    ((0 : Int) ≤ 0 ∧ (0 : Int) < ((c2maze.rows / 2 : Nat) : Int)) ∧
    (setStartPosition (setMaze c2maze) ⟨⟨0, 1⟩, ⟨0, 1⟩⟩ ⟨1, 1⟩ ⟨1, 1⟩ =
        some (startedAt c2maze ⟨0, 0⟩, none) ∧
      setEndPosition (startedAt c2maze ⟨0, 0⟩) ⟨⟨0, 1⟩, ⟨0, 1⟩⟩ ⟨1, 1⟩ ⟨1, 1⟩ =
        some (sameCellState c2maze ⟨0, 0⟩, none) ∧
      (get (sameCellState c2maze ⟨0, 0⟩) areaQ).points_ =
        [markerRect c2maze ⟨0, 0⟩ areaQ, markerRect c2maze ⟨0, 0⟩ areaQ] ∧
      (get (sameCellState c2maze ⟨0, 0⟩) areaQ).path_ = []) :=
  ⟨⟨by decide, by decide⟩, ⟨by decide, by decide⟩,
    claim_C10 c2maze ⟨0, 0⟩ areaQ ⟨by decide, by decide⟩ ⟨by decide, by decide⟩⟩

/-! ## Claim C7: the segment geometry -/

theorem Fr.val_ofInt (k : Int) : (Fr.ofInt k).val = (k : ℚ) := by
  unfold Fr.ofInt Fr.val
  norm_num

theorem Fr.val_mul (a b : Fr) : (a.mul b).val = a.val * b.val := by
  unfold Fr.mul Fr.val
  push_cast
  rw [div_mul_div_comm]

theorem Fr.val_div (a b : Fr) : (a.div b).val = a.val / b.val := by
  unfold Fr.div Fr.val
  split
  · push_cast
    rw [div_div_eq_mul_div, div_mul_eq_mul_div, div_div]
  · push_cast
    rw [neg_div_neg_eq, div_div_eq_mul_div, div_mul_eq_mul_div, div_div]

theorem Fr.val_ofInt_add_half (n : Int) :
    ((Fr.ofInt n).add ⟨1, 2⟩).val = (n : ℚ) + 1 / 2 := by
  unfold Fr.ofInt Fr.add Fr.val
  push_cast
  ring_nf

/-- The center abscissa CLAIM C7 prescribes for a doubled cell, following
the claim's words: `baseCellSize = min(W / C, H / R)`,
`scaleX = W / (baseCellSize · C)`, `centerX = (c/2 + 0.5) · baseCellSize ·
scaleX`, all over the float viewport inputs (modelled as exact rationals)
with no integer truncation. -/
def specCenterX (m : Maze) (area : PtQ) (p : Pt) : ℚ :=
  let W : ℚ := area.col.val
  let H : ℚ := area.row.val
  let C : ℚ := ((m.cols / 2 : Nat) : ℚ)
  let R : ℚ := ((m.rows / 2 : Nat) : ℚ)
  let base : ℚ := min (W / C) (H / R)
  (((p.col.tdiv 2 : Int) : ℚ) + 1 / 2) * base * (W / (base * C))

/-- The center ordinate CLAIM C7 prescribes for a doubled cell. -/
def specCenterY (m : Maze) (area : PtQ) (p : Pt) : ℚ :=
  let W : ℚ := area.col.val
  let H : ℚ := area.row.val
  let C : ℚ := ((m.cols / 2 : Nat) : ℚ)
  let R : ℚ := ((m.rows / 2 : Nat) : ℚ)
  let base : ℚ := min (W / C) (H / R)
  (((p.row.tdiv 2 : Int) : ℚ) + 1 / 2) * base * (H / (base * R))

/-- The center abscissa the code actually computes, over exact rationals:
the viewport is truncated to `int` and the base cell size is an `int`
division. -/
def amendedCenterX (m : Maze) (area : PtQ) (p : Pt) : ℚ :=
  let width : Int := area.col.trunc
  let height : Int := area.row.trunc
  let cols : Int := ((m.cols / 2 : Nat) : Int)
  let rows : Int := ((m.rows / 2 : Nat) : Int)
  let base : Int := min (width.tdiv cols) (height.tdiv rows)
  (((p.col.tdiv 2 : Int) : ℚ) + 1 / 2) * (base : ℚ) * ((width : ℚ) / ((base : ℚ) * (cols : ℚ)))

/-- The center ordinate the code actually computes, over exact rationals. -/
def amendedCenterY (m : Maze) (area : PtQ) (p : Pt) : ℚ :=
  let width : Int := area.col.trunc
  let height : Int := area.row.trunc
  let cols : Int := ((m.cols / 2 : Nat) : Int)
  let rows : Int := ((m.rows / 2 : Nat) : Int)
  let base : Int := min (width.tdiv cols) (height.tdiv rows)
  (((p.row.tdiv 2 : Int) : ℚ) + 1 / 2) * (base : ℚ) * ((height : ℚ) / ((base : ℚ) * (rows : ℚ)))

/-- `std::min` on two equal `int` divisions agrees with `Int.min`; the
pushed segment values equal the amended formulas. -/
theorem segOf_val (m : Maze) (area : PtQ) (a b : Pt) :
    (segOf m area a b).x1.val = amendedCenterX m area a ∧
    (segOf m area a b).y1.val = amendedCenterY m area a ∧
    (segOf m area a b).x2.val = amendedCenterX m area b ∧
    (segOf m area a b).y2.val = amendedCenterY m area b := by
  unfold segOf segCenterX segCenterY amendedCenterX amendedCenterY
  refine ⟨?_, ?_, ?_, ?_⟩ <;>
    simp only [Fr.val_mul, Fr.val_div, Fr.val_ofInt, Fr.val_ofInt_add_half]

/-- The segments `render` emits, when the bound check passes. -/
theorem get_path_eq (pf : PathFinder) (area : PtQ) (h : ¬ renderRejects pf) :
    (get pf area).path_ =
      (pf.path_.zip pf.path_.tail).map (fun pr => segOf pf.maze_ area pr.1 pr.2) := by
  unfold get
  rw [if_neg h]
  unfold setPointToPath fillPath
  by_cases h1 : pf.start_.row > -1 ∧ pf.start_.col > -1 <;>
    by_cases h2 : pf.end_.row > -1 ∧ pf.end_.col > -1 <;>
    by_cases h3 : pf.path_ = [] <;>
    simp [h1, h2, h3, emptyConfig]

/-- The open 4×4 doubled maze (logical 2×2). -/
def c7maze : Maze :=
  ⟨4, 4, [['0', '0', '0', '0'], ['0', '0', '0', '0'],
    ['0', '0', '0', '0'], ['0', '0', '0', '0']]⟩

/-- A render state holding the doubled path `[(0,0), (2,0)]`. -/
def c7pf : PathFinder :=
  { start_ := ⟨0, 0⟩, end_ := ⟨1, 1⟩, path_ := [⟨0, 0⟩, ⟨2, 0⟩], maze_ := c7maze }

/-- The 7.5 × 7.5 viewport. -/
def area75 : PtQ := ⟨⟨15, 2⟩, ⟨15, 2⟩⟩

/-- Counterexample to C7: on a 7.5 × 7.5 viewport over the 2×2-logical
maze, the claim's float formulas give the first segment end
`(15/8, 15/8)`, while the code truncates the viewport to 7 and divides in
`int` (base cell 3, not 3.75), emitting `(7/4, 7/4)`. -/
theorem claim_C7_counterexample :
    ¬ renderRejects c7pf ∧ c7pf.path_ = [⟨0, 0⟩, ⟨2, 0⟩] ∧
    (get c7pf area75).path_.map
        (fun s => ((s.x1.val, s.y1.val), (s.x2.val, s.y2.val))) ≠
      [((specCenterX c7maze area75 ⟨0, 0⟩, specCenterY c7maze area75 ⟨0, 0⟩),
        (specCenterX c7maze area75 ⟨2, 0⟩, specCenterY c7maze area75 ⟨2, 0⟩))] := by
  refine ⟨by decide, by decide, ?_⟩
  have hseg : (get c7pf area75).path_ =
      [⟨⟨21, 12⟩, ⟨21, 12⟩, ⟨63, 12⟩, ⟨21, 12⟩⟩] := by decide
  rw [hseg]
  simp only [List.map_cons, List.map_nil, specCenterX, specCenterY]
  norm_num [Fr.val, area75, c7maze]

/-- C7 (amended): when the bound check passes, `render` emits exactly one
segment per consecutive pair of stored doubled path cells, joining the
centers `(c/2 + 0.5) · baseCellSize · scaleX` — but with the viewport
first truncated to `int`, `baseCellSize = min(width / C, height / R)`
computed in integer division, and the scale factors formed from those
truncated values. -/
theorem claim_C7_amended (pf : PathFinder) (area : PtQ)
    (h : ¬ renderRejects pf) :
    (get pf area).path_.map
        (fun s => ((s.x1.val, s.y1.val), (s.x2.val, s.y2.val))) =
      (pf.path_.zip pf.path_.tail).map (fun pr =>
        ((amendedCenterX pf.maze_ area pr.1, amendedCenterY pf.maze_ area pr.1),
         (amendedCenterX pf.maze_ area pr.2, amendedCenterY pf.maze_ area pr.2))) ∧
    (get pf area).path_.length = pf.path_.length - 1 := by
  constructor
  · rw [get_path_eq pf area h, List.map_map]
    refine List.map_congr_left ?_
    intro pr _
    obtain ⟨e1, e2, e3, e4⟩ := segOf_val pf.maze_ area pr.1 pr.2
    simp [e1, e2, e3, e4]
  · rw [get_path_eq pf area h]
    simp only [List.length_map, List.length_zip, List.length_tail]
    omega

/-! ## Claim C9: the greedy rollout and its reconstruction -/

/-- One step of the greedy rollout: the displacement of the argmax action
at the current cell (the loop body of `buildQPath`). -/
def gstep (qT : QTable) (c : Pt) : Pt := getNextPoint c (selectMaxAction qT c)

/-- The sequence of cells the greedy rollout visits, from the doubled
start until the doubled end is first reached (fuelled like the loop). -/
def greedyVisits (qT : QTable) (endD : Pt) : Nat → Pt → List Pt
  | 0, cur => [cur]
  | fuel + 1, cur =>
    if cur = endD then [cur] else cur :: greedyVisits qT endD fuel (gstep qT cur)

/-- The parent bindings the rollout records over `k` steps from `cur`,
newest first. -/
def bindChain (qT : QTable) : Nat → Pt → List (Pt × Pt)
  | 0, _ => []
  | k + 1, cur => bindChain qT k (gstep qT cur) ++ [(gstep qT cur, cur)]

theorem bindChain_eq (qT : QTable) (k : Nat) (c0 : Pt) :
    bindChain qT k c0 = (List.range k).reverse.map
      (fun i => ((gstep qT)^[i + 1] c0, (gstep qT)^[i] c0)) := by
  induction k generalizing c0 with
  | zero => simp [bindChain]
  | succ k ih =>
    show bindChain qT k (gstep qT c0) ++ [(gstep qT c0, c0)] = _
    rw [ih, List.range_succ_eq_map, List.reverse_cons, List.map_append,
      List.map_reverse, List.map_reverse, List.map_map]
    congr 1

theorem bindChain_length (qT : QTable) (k : Nat) (c0 : Pt) :
    (bindChain qT k c0).length = k := by
  rw [bindChain_eq]
  simp

/-- Characterisation of a successful rollout: the loop reaches the doubled
end for the first time after `k` greedy steps, records exactly the step
bindings, and stores the reconstruction. -/
theorem buildLoop_success {qT : QTable} {pf : PathFinder} {startD endD : Pt} :
    ∀ (fuel : Nat) (cur : Pt) (parent : List (Pt × Pt)) (res : OpResult)
      (s' : PathFinder),
      buildLoop qT pf startD endD fuel cur parent = some (res, s') →
      res.ok = true →
      ∃ k, k < fuel ∧ (gstep qT)^[k] cur = endD ∧
        (∀ i < k, (gstep qT)^[i] cur ≠ endD) ∧
        reconstructPath (bindChain qT k cur ++ parent) startD endD =
          some s'.path_ ∧
        s' = { pf with path_ := s'.path_ } := by
  intro fuel
  induction fuel with
  | zero =>
    intro cur parent res s' h hok
    unfold buildLoop at h
    simp only [Option.some.injEq, Prod.mk.injEq] at h
    rw [← h.1] at hok
    simp at hok
  | succ fuel ih =>
    intro cur parent res s' h hok
    unfold buildLoop at h
    split at h
    · next hcur =>
      cases hrec : reconstructPath parent startD endD with
      | none => rw [hrec] at h; simp at h
      | some p =>
        rw [hrec] at h
        simp only [Option.some.injEq, Prod.mk.injEq] at h
        obtain ⟨h1, h2⟩ := h
        subst h2
        refine ⟨0, Nat.succ_pos fuel, hcur,
          fun i hi => absurd hi (Nat.not_lt_zero i), ?_, rfl⟩
        simpa [bindChain] using hrec
    · next hcur =>
      obtain ⟨k, hklt, hk, hmin, hrec, hs⟩ := ih _ _ _ _ h hok
      refine ⟨k + 1, by omega, ?_, ?_, ?_, hs⟩
      · rw [Function.iterate_succ_apply]
        exact hk
      · intro i hi
        cases i with
        | zero => simpa using hcur
        | succ i =>
          rw [Function.iterate_succ_apply]
          exact hmin i (by omega)
      · rw [show bindChain qT (k + 1) cur =
          bindChain qT k (gstep qT cur) ++ [(gstep qT cur, cur)] from rfl,
          List.append_assoc]
        exact hrec

/-- A first hit of the goal makes the visited greedy iterates pairwise
distinct: a repeat would make the trajectory periodic and the first hit
earlier. -/
theorem firstHit_inj {qT : QTable} {endD c0 : Pt} {k : Nat}
    (hk : (gstep qT)^[k] c0 = endD)
    (hmin : ∀ i < k, (gstep qT)^[i] c0 ≠ endD) :
    ∀ i j, i < j → j ≤ k → (gstep qT)^[i] c0 ≠ (gstep qT)^[j] c0 := by
  intro i j hij hjk heq
  have hkey : (gstep qT)^[(k - j) + i] c0 = endD := by
    rw [Function.iterate_add_apply, heq, ← Function.iterate_add_apply]
    rw [show k - j + j = k by omega]
    exact hk
  exact hmin ((k - j) + i) (by omega) hkey

theorem alookup_of_unique {l : List (Pt × Pt)} {key v : Pt}
    (hmem : (key, v) ∈ l)
    (huniq : ∀ kv ∈ l, (kv : Pt × Pt).1 = key → kv = (key, v)) :
    alookup l key = some v := by
  induction l with
  | nil => cases hmem
  | cons kv rest ih =>
    unfold alookup
    obtain ⟨k', v'⟩ := kv
    split
    · next he =>
      have := huniq (k', v') (List.mem_cons_self _ _) he
      rw [Prod.mk.injEq] at this
      rw [this.2]
    · next hne =>
      refine ih ?_ ?_
      · rcases List.mem_cons.mp hmem with hh | hh
        · rw [Prod.mk.injEq] at hh
          exact absurd hh.1.symm hne
        · exact hh
      · intro kv hkv
        exact huniq kv (List.mem_cons_of_mem _ hkv)

/-- Looking up the `j+1`-st iterate in the recorded chain returns the
`j`-th. -/
theorem bindChain_lookup {qT : QTable} {c0 : Pt} {k : Nat}
    (hdist : ∀ i j, i < j → j ≤ k → (gstep qT)^[i] c0 ≠ (gstep qT)^[j] c0)
    {j : Nat} (hj : j < k) :
    alookup (bindChain qT k c0) ((gstep qT)^[j + 1] c0) =
      some ((gstep qT)^[j] c0) := by
  rw [bindChain_eq]
  refine alookup_of_unique ?_ ?_
  · refine List.mem_map.mpr ⟨j, ?_, rfl⟩
    rw [List.mem_reverse, List.mem_range]
    exact hj
  · intro kv hkv hfst
    obtain ⟨i, hi, rfl⟩ := List.mem_map.mp hkv
    rw [List.mem_reverse, List.mem_range] at hi
    simp only at hfst
    have hij : i = j := by
      by_contra hne
      rcases Nat.lt_or_ge i j with hlt | hge
      · exact hdist (i + 1) (j + 1) (by omega) (by omega) hfst
      · exact hdist (j + 1) (i + 1) (by omega) (by omega) hfst.symm
    rw [hij]

/-- The reconstruction walk over the rollout chain retraces the greedy
iterates in descending order. -/
theorem reconWalk_greedy {qT : QTable} {c0 : Pt} {k : Nat}
    (hdist : ∀ i j, i < j → j ≤ k → (gstep qT)^[i] c0 ≠ (gstep qT)^[j] c0) :
    ∀ j, j ≤ k → ∀ acc : List Pt,
      reconWalk (bindChain qT k c0) c0 (j + 1) ((gstep qT)^[j] c0) acc =
        some (acc ++
          (List.range (j + 1)).reverse.map (fun i => (gstep qT)^[i] c0)) := by
  intro j
  induction j with
  | zero =>
    intro _ acc
    simp [reconWalk]
  | succ j ih =>
    intro hjk acc
    have hne : (gstep qT)^[j + 1] c0 ≠ c0 := by
      intro he
      exact hdist 0 (j + 1) (by omega) hjk he.symm
    show reconWalk (bindChain qT k c0) c0 (j + 1 + 1) ((gstep qT)^[j + 1] c0)
      acc = _
    unfold reconWalk
    rw [if_neg hne, bindChain_lookup hdist (by omega)]
    show reconWalk (bindChain qT k c0) c0 (j + 1) ((gstep qT)^[j] c0)
      (acc ++ [(gstep qT)^[j + 1] c0]) = _
    rw [ih (by omega) (acc ++ [(gstep qT)^[j + 1] c0])]
    have hsplit : (List.range (j + 1 + 1)).reverse.map
        (fun i => (gstep qT)^[i] c0) =
        (gstep qT)^[j + 1] c0 ::
          (List.range (j + 1)).reverse.map (fun i => (gstep qT)^[i] c0) := by
      rw [List.range_succ, List.reverse_append, List.map_append]
      simp only [List.reverse_singleton, List.map_cons, List.map_nil,
        List.singleton_append]
    rw [hsplit, List.append_assoc]
    rfl

/-- `reconstructPath` over the recorded chain of a first-hitting rollout
returns the reversed greedy visit sequence. -/
theorem recon_chain {qT : QTable} {c0 : Pt} {k : Nat}
    (hdist : ∀ i j, i < j → j ≤ k → (gstep qT)^[i] c0 ≠ (gstep qT)^[j] c0) :
    reconstructPath (bindChain qT k c0) c0 ((gstep qT)^[k] c0) =
      some ((List.range (k + 1)).reverse.map (fun i => (gstep qT)^[i] c0)) := by
  unfold reconstructPath
  rw [bindChain_length]
  exact reconWalk_greedy hdist k (Nat.le_refl k) []

/-- With enough fuel, the greedy visit sequence of a first-hitting rollout
is exactly the iterates up to the hit. -/
theorem greedyVisits_eq {qT : QTable} {endD : Pt} {k : Nat} :
    ∀ (c0 : Pt) (f : Nat), (gstep qT)^[k] c0 = endD →
      (∀ i < k, (gstep qT)^[i] c0 ≠ endD) → k ≤ f →
      greedyVisits qT endD f c0 =
        (List.range (k + 1)).map (fun i => (gstep qT)^[i] c0) := by
  induction k with
  | zero =>
    intro c0 f hk _ _
    have hc : c0 = endD := hk
    cases f with
    | zero => simp [greedyVisits, hc]
    | succ f => simp [greedyVisits, hc]
  | succ k ih =>
    intro c0 f hk hmin hf
    have hc : c0 ≠ endD := by
      have := hmin 0 (Nat.succ_pos k)
      simpa using this
    cases f with
    | zero => omega
    | succ f =>
      show (if c0 = endD then [c0]
        else c0 :: greedyVisits qT endD f (gstep qT c0)) = _
      rw [if_neg hc]
      rw [ih (gstep qT c0) f
        (by rw [← Function.iterate_succ_apply]; exact hk)
        (fun i hi => by
          rw [← Function.iterate_succ_apply]
          exact hmin (i + 1) (by omega))
        (by omega)]
      rw [List.range_succ_eq_map]
      simp [Function.comp_def, Function.iterate_succ_apply]

/-- The greedy visit sequence of a first-hitting rollout repeats no cell. -/
theorem greedyVisits_nodup {qT : QTable} {endD c0 : Pt} {k f : Nat}
    (hk : (gstep qT)^[k] c0 = endD)
    (hmin : ∀ i < k, (gstep qT)^[i] c0 ≠ endD) (hf : k ≤ f) :
    (greedyVisits qT endD f c0).Nodup := by
  rw [greedyVisits_eq c0 f hk hmin hf]
  refine List.Nodup.map_on ?_ (List.nodup_range _)
  intro i hi j hj hij
  rw [List.mem_range] at hi hj
  by_contra hne
  rcases Nat.lt_or_ge i j with hlt | hge
  · exact firstHit_inj hk hmin i j hlt (by omega) hij
  · exact firstHit_inj hk hmin j i (by omega) (by omega) hij.symm

/-! ## A scripted training run used by the Q-mode claims

The oracle draws `r = 0` and action index `1` (UP) on every step, and the
`exp` stand-in returns a positive value for the schedule's arguments, so
from episode 1 on every episode takes the ε-greedy branch, moves UP off
the top edge, and terminates in one step, updating only the UP entry of
the start cell. -/

/-- The constant oracle: every real draw is `0`, every action draw is `1`. -/
def cRng : Rng := ⟨fun _ => ⟨0, 1⟩, fun _ => 1⟩

/-- A concrete stand-in for the C library `exp`: positive on every input
with positive denominator (only positivity of `exp` is used by the runs). -/
def qexpStub (x : Fr) : Fr := ⟨x.d, x.d - x.n⟩

/-- The Q-update the scripted UP-episode applies to the UP entry of the
start cell (reward −10, next-state maximum 0). -/
def c1Update (aU : Fr) : Fr :=
  aU.add (Fr.mul ⟨9, 10⟩ (Fr.sub (Fr.add ⟨-10, 1⟩ (Fr.mul ⟨49, 50⟩ ⟨0, 1⟩)) aU))

/-- Invariant of the UP entry along the scripted run: zero initially, at
most −9 with positive denominator after any update. -/
def c1Inv (aU : Fr) : Prop :=
  aU = ⟨0, 1⟩ ∨ (aU.n ≤ -9 * aU.d ∧ 0 < aU.d)

theorem c1Update_strong {aU : Fr} (h : c1Inv aU) :
    (c1Update aU).n ≤ -9 * (c1Update aU).d ∧ 0 < (c1Update aU).d := by
  rcases h with h | ⟨hn, hd⟩
  · subst h; decide
  · simp only [c1Update, Fr.add, Fr.mul, Fr.sub]
    constructor
    · nlinarith
    · nlinarith

theorem c1Inv_update {aU : Fr} (h : c1Inv aU) : c1Inv (c1Update aU) :=
  Or.inr (c1Update_strong h)

theorem c1Inv_iter {aU : Fr} (h : c1Inv aU) (n : Nat) :
    c1Inv (c1Update^[n] aU) := by
  induction n with
  | zero => exact h
  | succ n ih =>
    rw [Function.iterate_succ_apply']
    exact c1Inv_update ih

theorem c1_strong_iter {aU : Fr} (h : c1Inv aU) (n : Nat) :
    (c1Update^[n + 1] aU).n ≤ -9 * (c1Update^[n + 1] aU).d ∧
      0 < (c1Update^[n + 1] aU).d := by
  rw [Function.iterate_succ_apply']
  exact c1Update_strong (c1Inv_iter h n)

theorem blt_m9_false {aU : Fr} (hn : aU.n ≤ -9 * aU.d) (_hd : 0 < aU.d) :
    Fr.blt ⟨-4500, 500⟩ aU = false := by
  simp only [Fr.blt, decide_eq_false_iff_not, not_lt]
  omega

theorem valMax_c1row {aU : Fr} (h : c1Inv aU) :
    valMax [⟨-4500, 500⟩, aU, ⟨0, 1⟩, ⟨0, 1⟩] = ⟨0, 1⟩ := by
  rcases h with h | ⟨hn, hd⟩
  · subst h; decide
  · have h1 := blt_m9_false hn hd
    have h2 : Fr.blt ⟨-4500, 500⟩ ⟨0, 1⟩ = true := by decide
    have h3 : Fr.blt ⟨0, 1⟩ ⟨0, 1⟩ = false := by decide
    simp [valMax, h1, h2, h3]

theorem idxMax_c1row {aU : Fr} (hn : aU.n ≤ -9 * aU.d) (hd : 0 < aU.d) :
    idxMax [⟨-4500, 500⟩, aU, ⟨0, 1⟩, ⟨0, 1⟩] = 2 := by
  have h1 := blt_m9_false hn hd
  have h2 : Fr.blt ⟨-4500, 500⟩ ⟨0, 1⟩ = true := by decide
  have h3 : Fr.blt ⟨0, 1⟩ ⟨0, 1⟩ = false := by decide
  simp [idxMax, h1, h2, h3]

/-- The scripted ε-greedy episode: one UP step off the top edge, a single
Q-update of the UP entry of the start cell. -/
theorem qEpisode_up {m : Maze} {goal : Pt} {qT : QTable} {aU eps : Fr}
    {rst : RngState} {fuel : Nat}
    (hg : (⟨0, -1⟩ : Pt) ≠ goal)
    (hget : qtGet qT ⟨0, 0⟩ = [⟨-4500, 500⟩, aU, ⟨0, 1⟩, ⟨0, 1⟩])
    (hInv : c1Inv aU)
    (heps : Fr.blt ⟨0, 1⟩ eps = true) :
    qEpisode cRng m goal ⟨9, 10⟩ ⟨49, 50⟩ eps (fuel + 1) qT ⟨0, 0⟩ rst =
      some (qtSet qT ⟨0, 0⟩ 1 (c1Update aU), ⟨rst.rIdx + 1, rst.kIdx + 1⟩) := by
  have hsel : selectAction cRng rst qT ⟨0, 0⟩ eps =
      (Action.UP, ⟨rst.rIdx + 1, rst.kIdx + 1⟩) := by
    simp [selectAction, cRng, heps, actionOfIdx]
  have hnp : getNextPoint ⟨0, 0⟩ Action.UP = ⟨0, -1⟩ := by decide
  have hw : isNotWall m 0 (-1) = false := by simp [isNotWall]
  have hrew : getReward m ⟨0, 0⟩ ⟨0, -1⟩ goal = (⟨-10, 1⟩, ⟨0, 0⟩, true) := by
    simp [getReward, hg, hw]
  have hupd : updateQTable qT ⟨0, 0⟩ Action.UP ⟨0, 0⟩ ⟨-10, 1⟩ ⟨9, 10⟩ ⟨49, 50⟩ =
      qtSet qT ⟨0, 0⟩ 1 (c1Update aU) := by
    simp only [updateQTable, hget, valMax_c1row hInv, actionIdx]
    rfl
  simp only [qEpisode, hsel, hnp, hrew, hupd, if_true]

/-- The episode schedule keeps ε strictly positive from episode 1 on. -/
theorem blt_eps_pos (e : Nat) :
    Fr.blt ⟨0, 1⟩
      (Fr.mul ⟨1, 1⟩ (qexpStub ((Fr.ofInt e).mul ⟨-1, 100⟩))) = true := by
  simp [Fr.blt, Fr.mul, qexpStub, Fr.ofInt]

/-- One unfolding of the episode loop. -/
theorem qTrain_step {rng : Rng} {expq : Fr → Fr} {m : Maze} {start goal : Pt}
    {a g eI : Fr} {n e : Nat} {eps : Fr} {qT : QTable} {rst : RngState} :
    qTrain rng expq m start goal a g eI (n + 1) e eps qT rst =
      match qEpisode rng m goal a g eps episodeFuel qT start rst with
      | none => none
      | some (qT', rst') =>
        qTrain rng expq m start goal a g eI n (e + 1)
          (eI.mul (expq ((Fr.ofInt e).mul ⟨-1, 100⟩))) qT' rst' := rfl

/-- The scripted tail of training: from episode 1 on, each of `n` episodes
applies one `c1Update` to the UP entry and consumes one draw of each
stream.  `tblF` abstracts the table, its start row and the write-back. -/
theorem qTrain_tail {m : Maze} {goal : Pt} {tblF : Fr → QTable}
    (hg : (⟨0, -1⟩ : Pt) ≠ goal)
    (hget : ∀ aU, qtGet (tblF aU) ⟨0, 0⟩ = [⟨-4500, 500⟩, aU, ⟨0, 1⟩, ⟨0, 1⟩])
    (hset : ∀ aU, qtSet (tblF aU) ⟨0, 0⟩ 1 (c1Update aU) = tblF (c1Update aU)) :
    ∀ (n e : Nat) (aU : Fr) (rst : RngState), c1Inv aU →
      qTrain cRng qexpStub m ⟨0, 0⟩ goal ⟨9, 10⟩ ⟨49, 50⟩ ⟨1, 1⟩ n (e + 1)
        (Fr.mul ⟨1, 1⟩ (qexpStub ((Fr.ofInt e).mul ⟨-1, 100⟩))) (tblF aU) rst =
      some (tblF (c1Update^[n] aU), ⟨rst.rIdx + n, rst.kIdx + n⟩) := by
  intro n
  induction n with
  | zero =>
    intro e aU rst _
    simp [qTrain]
  | succ n ih =>
    intro e aU rst hInv
    simp only [qTrain]
    rw [show (episodeFuel : Nat) = 99 + 1 from rfl]
    rw [qEpisode_up hg (hget aU) hInv (blt_eps_pos e)]
    rw [hset aU]
    show qTrain cRng qexpStub m ⟨0, 0⟩ goal ⟨9, 10⟩ ⟨49, 50⟩ ⟨1, 1⟩ n
        (e + 1 + 1)
        (Fr.mul ⟨1, 1⟩ (qexpStub ((Fr.ofInt ((e + 1 : Nat) : Int)).mul ⟨-1, 100⟩)))
        (tblF (c1Update aU)) ⟨rst.rIdx + 1, rst.kIdx + 1⟩ =
      some (tblF (c1Update^[n + 1] aU),
        ⟨rst.rIdx + (n + 1), rst.kIdx + (n + 1)⟩)
    rw [ih (e + 1) (c1Update aU) ⟨rst.rIdx + 1, rst.kIdx + 1⟩ (c1Inv_update hInv)]
    rw [← Function.iterate_succ_apply]
    have h1 : rst.rIdx + 1 + n = rst.rIdx + (n + 1) := by omega
    have h2 : rst.kIdx + 1 + n = rst.kIdx + (n + 1) := by omega
    rw [h1, h2]

/-! ### The concrete C9 run: a 1 × 1 logical maze with start = goal -/

/-- A 2 × 2 doubled grid (1 × 1 logical maze), all cells walls. -/
def c9maze : Maze := ⟨2, 2, [['1', '1'], ['1', '1']]⟩

/-- The engine state after `setMaze(c9maze)`. -/
def c9pf : PathFinder := setMaze c9maze

/-- The Q-table shape the scripted run maintains on `c9maze`: only the
start cell's row is touched, its UP entry is the parameter. -/
def c9Table (aU : Fr) : QTable :=
  [[[⟨-4500, 500⟩, aU, ⟨0, 1⟩, ⟨0, 1⟩], qZero], [qZero, qZero]]

/-- The scripted training on `c9maze` terminates, with the final UP entry
an iterate of the scripted update. -/
theorem c9train :
    qTrain cRng qexpStub c9maze ⟨0, 0⟩ ⟨0, 0⟩ ⟨9, 10⟩ ⟨49, 50⟩ ⟨1, 1⟩ 155 0
      ⟨0, 1⟩ (qtableInit 2 2) ⟨0, 0⟩ =
    some (c9Table (c1Update^[154] ⟨0, 1⟩), ⟨155, 154⟩) := by
  have hg : (⟨0, -1⟩ : Pt) ≠ (⟨0, 0⟩ : Pt) := by decide
  rw [show (155 : Nat) = 154 + 1 from rfl, qTrain_step]
  rw [show qEpisode cRng c9maze ⟨0, 0⟩ ⟨9, 10⟩ ⟨49, 50⟩ ⟨0, 1⟩ episodeFuel
      (qtableInit 2 2) ⟨0, 0⟩ ⟨0, 0⟩ = some (c9Table ⟨0, 1⟩, ⟨1, 0⟩) from
    by decide]
  exact @qTrain_tail c9maze ⟨0, 0⟩ c9Table hg (fun aU => rfl) (fun aU => rfl)
    154 0 ⟨0, 1⟩ ⟨1, 0⟩ (Or.inl rfl)

/-- The state after the successful C9 `q_find` run. -/
def c9done : PathFinder := ⟨⟨0, 0⟩, ⟨0, 0⟩, [⟨0, 0⟩], c9maze⟩

/-- A concrete successful `q_find`: training terminates by `c9train` and
the rollout succeeds immediately (start = goal). -/
theorem c9run : QPathFinding cRng qexpStub c9pf ⟨0, 0⟩ ⟨0, 0⟩ =
    some (⟨true, ""⟩, c9done) := by
  simp only [QPathFinding]
  rw [if_neg (by decide)]
  rw [show c9pf.maze_ = c9maze from rfl]
  rw [show (getEpisodesCount c9maze).toNat = 155 from by decide]
  rw [show (⟨Pt.col ⟨0, 0⟩ * 2, Pt.row ⟨0, 0⟩ * 2⟩ : Pt) = (⟨0, 0⟩ : Pt) from
    by decide]
  rw [show qtableInit c9maze.rows c9maze.cols = qtableInit 2 2 from rfl]
  rw [c9train]
  rfl

/-! ### The concrete C1 run: a 1 × 2 logical maze whose rollout ping-pongs -/

/-- A 2 × 4 doubled grid (1 × 2 logical maze): the top row is open, the
bottom row and the rightmost top cell are walls. -/
def c1maze : Maze := ⟨2, 4, [['0', '0', '0', '1'], ['1', '1', '1', '1']]⟩

/-- The engine state after `setMaze(c1maze)`. -/
def c1pf : PathFinder := setMaze c1maze

/-- The Q-table shape the scripted run maintains on `c1maze`. -/
def c1Table (aU : Fr) : QTable :=
  [[[⟨-4500, 500⟩, aU, ⟨0, 1⟩, ⟨0, 1⟩], qZero, qZero, qZero],
   [qZero, qZero, qZero, qZero]]

/-- The scripted training on `c1maze` terminates, with the final UP entry
an iterate of the scripted update. -/
theorem c1train :
    qTrain cRng qexpStub c1maze ⟨0, 0⟩ ⟨2, 0⟩ ⟨9, 10⟩ ⟨49, 50⟩ ⟨1, 1⟩ 310 0
      ⟨0, 1⟩ (qtableInit 2 4) ⟨0, 0⟩ =
    some (c1Table (c1Update^[309] ⟨0, 1⟩), ⟨310, 309⟩) := by
  have hg : (⟨0, -1⟩ : Pt) ≠ (⟨2, 0⟩ : Pt) := by decide
  rw [show (310 : Nat) = 309 + 1 from rfl, qTrain_step]
  rw [show qEpisode cRng c1maze ⟨2, 0⟩ ⟨9, 10⟩ ⟨49, 50⟩ ⟨0, 1⟩ episodeFuel
      (qtableInit 2 4) ⟨0, 0⟩ ⟨0, 0⟩ = some (c1Table ⟨0, 1⟩, ⟨1, 0⟩) from
    by decide]
  exact @qTrain_tail c1maze ⟨2, 0⟩ c1Table hg (fun aU => rfl) (fun aU => rfl)
    309 0 ⟨0, 1⟩ ⟨1, 0⟩ (Or.inl rfl)

/-- After training, the greedy step at the doubled start is RIGHT (the UP
entry is deep below zero, LEFT is −9, RIGHT and DOWN are zero and
`std::max_element` keeps the first maximum, RIGHT). -/
theorem c1gstepA : gstep (c1Table (c1Update^[309] ⟨0, 1⟩)) ⟨0, 0⟩ = ⟨1, 0⟩ := by
  have hs : (c1Update^[309] ⟨0, 1⟩).n ≤ -9 * (c1Update^[309] ⟨0, 1⟩).d ∧
      0 < (c1Update^[309] ⟨0, 1⟩).d :=
    c1_strong_iter (Or.inl rfl) 308
  unfold gstep selectMaxAction
  rw [show qtGet (c1Table (c1Update^[309] ⟨0, 1⟩)) ⟨0, 0⟩ =
      [⟨-4500, 500⟩, c1Update^[309] ⟨0, 1⟩, ⟨0, 1⟩, ⟨0, 1⟩] from rfl]
  rw [idxMax_c1row hs.1 hs.2]
  decide

/-- The greedy step at the untouched neighbour cell is LEFT (an all-zero
row keeps the first maximum). -/
theorem c1gstepB : gstep (c1Table (c1Update^[309] ⟨0, 1⟩)) ⟨1, 0⟩ = ⟨0, 0⟩ :=
  rfl

/-- A rollout that ping-pongs between two non-goal cells exhausts any
budget and fails with the original state. -/
theorem buildLoop_pingpong {qT : QTable} {pf : PathFinder} {startD endD : Pt}
    (hA : gstep qT ⟨0, 0⟩ = ⟨1, 0⟩) (hB : gstep qT ⟨1, 0⟩ = ⟨0, 0⟩)
    (hAe : (⟨0, 0⟩ : Pt) ≠ endD) (hBe : (⟨1, 0⟩ : Pt) ≠ endD) :
    ∀ (fuel : Nat) (cur : Pt), (cur = ⟨0, 0⟩ ∨ cur = ⟨1, 0⟩) →
      ∀ parent, buildLoop qT pf startD endD fuel cur parent =
        some (⟨false, pathNotFoundMsg⟩, pf) := by
  intro fuel
  induction fuel with
  | zero =>
    intro cur _ parent
    rfl
  | succ fuel ih =>
    intro cur hcur parent
    rcases hcur with h | h
    · subst h
      unfold buildLoop
      rw [if_neg hAe]
      show buildLoop qT pf startD endD fuel (gstep qT ⟨0, 0⟩)
        ((gstep qT ⟨0, 0⟩, ⟨0, 0⟩) :: parent) = _
      rw [hA]
      exact ih ⟨1, 0⟩ (Or.inr rfl) _
    · subst h
      unfold buildLoop
      rw [if_neg hBe]
      show buildLoop qT pf startD endD fuel (gstep qT ⟨1, 0⟩)
        ((gstep qT ⟨1, 0⟩, ⟨1, 0⟩) :: parent) = _
      rw [hB]
      exact ih ⟨0, 0⟩ (Or.inl rfl) _

/-- A rollout that fails surfaces `{false, PathNotFound}` and hands back
the object it was given — whose endpoints `QPathFinding` has already
overwritten. -/
theorem buildLoop_fail {qT : QTable} {pf : PathFinder} {startD endD : Pt} :
    ∀ (fuel : Nat) (cur : Pt) (parent : List (Pt × Pt)) (res : OpResult)
      (s' : PathFinder),
      buildLoop qT pf startD endD fuel cur parent = some (res, s') →
      res.ok = false →
      res = ⟨false, pathNotFoundMsg⟩ ∧ s' = pf := by
  intro fuel
  induction fuel with
  | zero =>
    intro cur parent res s' h _
    unfold buildLoop at h
    simp only [Option.some.injEq, Prod.mk.injEq] at h
    exact ⟨h.1.symm, h.2.symm⟩
  | succ fuel ih =>
    intro cur parent res s' h hfail
    unfold buildLoop at h
    split at h
    · cases hrec : reconstructPath parent startD endD with
      | none => rw [hrec] at h; simp at h
      | some p =>
        rw [hrec] at h
        simp only [Option.some.injEq, Prod.mk.injEq] at h
        rw [← h.1] at hfail
        simp at hfail
    · exact ih _ _ _ _ h hfail

/-- The concrete Q-mode rejection run used by the C1 witness. -/
theorem c1reject : QPathFinding cRng qexpStub c1pf ⟨5, 5⟩ ⟨0, 0⟩ =
    some (⟨false, incorrectPointMsg⟩, c1pf) := by decide

end S21Maze

namespace S21Maze

/-- Witness for the amended C7 at the concrete 7.5 × 7.5 render. -/
theorem claim_C7_witness :
    ¬ renderRejects c7pf ∧
    ((get c7pf area75).path_.map
        (fun s => ((s.x1.val, s.y1.val), (s.x2.val, s.y2.val))) =
      (c7pf.path_.zip c7pf.path_.tail).map (fun pr =>
        ((amendedCenterX c7pf.maze_ area75 pr.1, amendedCenterY c7pf.maze_ area75 pr.1),
         (amendedCenterX c7pf.maze_ area75 pr.2, amendedCenterY c7pf.maze_ area75 pr.2))) ∧
      (get c7pf area75).path_.length = c7pf.path_.length - 1) :=
  ⟨by decide, claim_C7_amended c7pf area75 (by decide)⟩

/-- C9: whenever `q_find` returns `{true, ""}`, the stored path equals the
reversed sequence of cells visited by the greedy rollout (repeatedly taking
`selectMaxAction` steps of the trained Q-table) from the doubled start to
the doubled goal, and that rollout visits no cell twice. -/
theorem claim_C9 {rng : Rng} {expq : Fr → Fr} {pf : PathFinder} {st gl : Pt}
    {res : OpResult} {s1 : PathFinder}
    (h : QPathFinding rng expq pf st gl = some (res, s1))
    (hok : res.ok = true) :
    ∃ qT rst,
      qTrain rng expq pf.maze_ ⟨st.col * 2, st.row * 2⟩ ⟨gl.col * 2, gl.row * 2⟩
        ⟨9, 10⟩ ⟨49, 50⟩ ⟨1, 1⟩ (getEpisodesCount pf.maze_).toNat 0 ⟨0, 1⟩
        (qtableInit pf.maze_.rows pf.maze_.cols) ⟨0, 0⟩ = some (qT, rst) ∧
      s1.path_ = (greedyVisits qT ⟨gl.col * 2, gl.row * 2⟩ 40002
        ⟨st.col * 2, st.row * 2⟩).reverse ∧
      (greedyVisits qT ⟨gl.col * 2, gl.row * 2⟩ 40002
        ⟨st.col * 2, st.row * 2⟩).Nodup := by
  simp only [QPathFinding] at h
  split at h
  · simp only [Option.some.injEq, Prod.mk.injEq] at h
    rw [← h.1] at hok
    simp at hok
  · cases hq : qTrain rng expq pf.maze_ ⟨st.col * 2, st.row * 2⟩
        ⟨gl.col * 2, gl.row * 2⟩ ⟨9, 10⟩ ⟨49, 50⟩ ⟨1, 1⟩
        (getEpisodesCount pf.maze_).toNat 0 ⟨0, 1⟩
        (qtableInit pf.maze_.rows pf.maze_.cols) ⟨0, 0⟩ with
    | none => rw [hq] at h; simp at h
    | some pr =>
      obtain ⟨qT, rst⟩ := pr
      rw [hq] at h
      have hbl : buildLoop qT { pf with start_ := st, end_ := gl }
          ⟨st.col * 2, st.row * 2⟩ ⟨gl.col * 2, gl.row * 2⟩ 40002
          ⟨st.col * 2, st.row * 2⟩ [] = some (res, s1) := h
      obtain ⟨k, hklt, hk, hmin, hrec, hs⟩ :=
        buildLoop_success _ _ _ _ _ hbl hok
      rw [List.append_nil] at hrec
      have hdist := firstHit_inj hk hmin
      have hrc := recon_chain hdist
      rw [hk] at hrc
      have hpath := Option.some.inj (hrec.symm.trans hrc)
      refine ⟨qT, rst, rfl, ?_, ?_⟩
      · rw [greedyVisits_eq ⟨st.col * 2, st.row * 2⟩ 40002 hk hmin (by omega),
          hpath, List.map_reverse]
      · exact greedyVisits_nodup hk hmin (by omega)

/-- Witness for C9 at a concrete successful `q_find` (the 1 × 1 logical
maze with start = goal): training terminates and the one-cell rollout is
the reversed stored path, with no repeated cell. -/
theorem claim_C9_witness :
    QPathFinding cRng qexpStub c9pf ⟨0, 0⟩ ⟨0, 0⟩ = some (⟨true, ""⟩, c9done) ∧
    ∃ qT rst,
      qTrain cRng qexpStub c9pf.maze_ ⟨0, 0⟩ ⟨0, 0⟩ ⟨9, 10⟩ ⟨49, 50⟩ ⟨1, 1⟩
        (getEpisodesCount c9pf.maze_).toNat 0 ⟨0, 1⟩
        (qtableInit c9pf.maze_.rows c9pf.maze_.cols) ⟨0, 0⟩ = some (qT, rst) ∧
      c9done.path_ = (greedyVisits qT ⟨0, 0⟩ 40002 ⟨0, 0⟩).reverse ∧
      (greedyVisits qT ⟨0, 0⟩ 40002 ⟨0, 0⟩).Nodup :=
  ⟨c9run, claim_C9 c9run rfl⟩

/-- C1 is refuted: a `q_find` call whose rollout exhausts the step budget
returns `ok = false` yet leaves `start` and `end` overwritten with the new
endpoints (the pre-call sentinel values are lost), so the `(start, end,
path)` tuple is neither unchanged nor atomically updated.  The run is the
scripted constant-oracle training on `c1maze`, after which the greedy
rollout ping-pongs between the two leftmost cells and never reaches the
goal. -/
theorem claim_C1_counterexample :
    ∃ res s1, QPathFinding cRng qexpStub c1pf ⟨0, 0⟩ ⟨1, 0⟩ =
        some (res, s1) ∧
      res.ok = false ∧
      ¬ (s1.start_ = c1pf.start_ ∧ s1.end_ = c1pf.end_ ∧
          s1.path_ = c1pf.path_) := by
  refine ⟨⟨false, pathNotFoundMsg⟩, ⟨⟨0, 0⟩, ⟨1, 0⟩, [], c1maze⟩, ?_, rfl,
    by decide⟩
  simp only [QPathFinding]
  rw [if_neg (by decide)]
  rw [show c1pf.maze_ = c1maze from rfl]
  rw [show (getEpisodesCount c1maze).toNat = 310 from by decide]
  rw [show (⟨Pt.col ⟨0, 0⟩ * 2, Pt.row ⟨0, 0⟩ * 2⟩ : Pt) = (⟨0, 0⟩ : Pt) from
    by decide]
  rw [show (⟨Pt.col ⟨1, 0⟩ * 2, Pt.row ⟨1, 0⟩ * 2⟩ : Pt) = (⟨2, 0⟩ : Pt) from
    by decide]
  rw [show qtableInit c1maze.rows c1maze.cols = qtableInit 2 4 from rfl]
  rw [c1train]
  show buildLoop (c1Table (c1Update^[309] ⟨0, 1⟩)) ⟨⟨0, 0⟩, ⟨1, 0⟩, [], c1maze⟩
    ⟨0, 0⟩ ⟨2, 0⟩ 40002 ⟨0, 0⟩ [] =
    some (⟨false, pathNotFoundMsg⟩, ⟨⟨0, 0⟩, ⟨1, 0⟩, [], c1maze⟩)
  exact buildLoop_pingpong c1gstepA c1gstepB (by decide) (by decide) 40002
    ⟨0, 0⟩ (Or.inl rfl) []

/-- C1 amended for `q_find`: a failing call either rejects an out-of-range
endpoint and leaves the state exactly as it was, or exhausts the rollout
budget and hands back the state with `start` and `end` overwritten by the
new endpoints while `path` is untouched — the tuple is not restored. -/
theorem claim_C1_amended {rng : Rng} {expq : Fr → Fr} {pf : PathFinder}
    {st gl : Pt} {res : OpResult} {s1 : PathFinder}
    (h : QPathFinding rng expq pf st gl = some (res, s1))
    (hfail : res.ok = false) :
    (res = ⟨false, incorrectPointMsg⟩ ∧ s1 = pf) ∨
    (res = ⟨false, pathNotFoundMsg⟩ ∧
      s1 = { pf with start_ := st, end_ := gl }) := by
  simp only [QPathFinding] at h
  split at h
  · simp only [Option.some.injEq, Prod.mk.injEq] at h
    exact Or.inl ⟨h.1.symm, h.2.symm⟩
  · cases hq : qTrain rng expq pf.maze_ ⟨st.col * 2, st.row * 2⟩
        ⟨gl.col * 2, gl.row * 2⟩ ⟨9, 10⟩ ⟨49, 50⟩ ⟨1, 1⟩
        (getEpisodesCount pf.maze_).toNat 0 ⟨0, 1⟩
        (qtableInit pf.maze_.rows pf.maze_.cols) ⟨0, 0⟩ with
    | none => rw [hq] at h; simp at h
    | some pr =>
      obtain ⟨qT, rst⟩ := pr
      rw [hq] at h
      have hbl : buildLoop qT { pf with start_ := st, end_ := gl }
          ⟨st.col * 2, st.row * 2⟩ ⟨gl.col * 2, gl.row * 2⟩ 40002
          ⟨st.col * 2, st.row * 2⟩ [] = some (res, s1) := h
      exact Or.inr (buildLoop_fail _ _ _ _ _ hbl hfail)

/-- Witness for the amended C1 at a concrete rejected `q_find` call: the
out-of-range start is refused and the state is exactly the pre-call one. -/
theorem claim_C1_witness :
    QPathFinding cRng qexpStub c1pf ⟨5, 5⟩ ⟨0, 0⟩ =
        some (⟨false, incorrectPointMsg⟩, c1pf) ∧
    (((⟨false, incorrectPointMsg⟩ : OpResult) = ⟨false, incorrectPointMsg⟩ ∧
        c1pf = c1pf) ∨
      ((⟨false, incorrectPointMsg⟩ : OpResult) = ⟨false, pathNotFoundMsg⟩ ∧
        c1pf = { c1pf with start_ := ⟨5, 5⟩, end_ := ⟨0, 0⟩ })) :=
  ⟨c1reject, claim_C1_amended c1reject rfl⟩

end S21Maze
